import Mathlib

/-!
Verification of the reel acquisition-and-sync pipeline (the Instagram reel
scraper whose core lives in the single pipeline source file).

Strings are modelled as `List Char` at the computation level and as `String`
at API boundaries (`String.mk`/`.data` mediate, definitionally).  JavaScript
`null`/`undefined` values are modelled as `Option`.  The floating-point
arithmetic that `parseFloat`/`Math.round`/`Math.floor` perform on count
tokens is modelled exactly: a parsed decimal literal is kept as a pair
(mantissa, number of fraction digits), i.e. the exact rational
mantissa / 10 ^ fracLen, and rounding is performed on that exact value.
For every concrete token appearing in the claims the IEEE-double computation
of the source and the exact computation agree (the products involved round
to the same double, e.g. 12.3 * 1000 rounds to exactly 12300.0).

Wall-clock timestamps (`new Date().toISOString()`) are modelled as an
explicit `Nat` parameter threaded to each mutating operation.
-/

namespace Scrapinsta

/-! ### Character toolkit

`isDigit`/`isNumChar`/`isWS` model the regex character classes `\d`,
`[\d.,]` and `\s` (for `\s` only the whitespace characters that can occur in
the inputs considered here: space, tab, LF, CR).  `lowerChar`/`upperChar`
model ASCII case folding, which is what the source's case-insensitive
regexes and `toUpperCase()` perform on the ASCII tokens handled here. -/

def isDigit (c : Char) : Bool := 48 ≤ c.toNat && c.toNat ≤ 57

def isNumChar (c : Char) : Bool := isDigit c || c.toNat == 46 || c.toNat == 44

def isWS (c : Char) : Bool := c.toNat == 32 || c.toNat == 9 || c.toNat == 10 || c.toNat == 13

def digitVal (c : Char) : Nat := c.toNat - 48

def natOfDigits (l : List Char) : Nat := l.foldl (fun a c => 10 * a + digitVal c) 0

def lowerChar (c : Char) : Char :=
  match c with
  | 'A' => 'a' | 'B' => 'b' | 'C' => 'c' | 'D' => 'd' | 'E' => 'e' | 'F' => 'f'
  | 'G' => 'g' | 'H' => 'h' | 'I' => 'i' | 'J' => 'j' | 'K' => 'k' | 'L' => 'l'
  | 'M' => 'm' | 'N' => 'n' | 'O' => 'o' | 'P' => 'p' | 'Q' => 'q' | 'R' => 'r'
  | 'S' => 's' | 'T' => 't' | 'U' => 'u' | 'V' => 'v' | 'W' => 'w' | 'X' => 'x'
  | 'Y' => 'y' | 'Z' => 'z'
  | c => c

def upperChar (c : Char) : Char :=
  match c with
  | 'a' => 'A' | 'b' => 'B' | 'c' => 'C' | 'd' => 'D' | 'e' => 'E' | 'f' => 'F'
  | 'g' => 'G' | 'h' => 'H' | 'i' => 'I' | 'j' => 'J' | 'k' => 'K' | 'l' => 'L'
  | 'm' => 'M' | 'n' => 'N' | 'o' => 'O' | 'p' => 'P' | 'q' => 'Q' | 'r' => 'R'
  | 's' => 'S' | 't' => 'T' | 'u' => 'U' | 'v' => 'V' | 'w' => 'W' | 'x' => 'X'
  | 'y' => 'Y' | 'z' => 'Z'
  | c => c

/-- A character accepted by the suffix class `[KM]` of `normalizeCount`'s
regex under the `i` flag. -/
def isKM (c : Char) : Bool := lowerChar c == 'k' || lowerChar c == 'm'

/-- A character accepted by the suffix class `[KMB]` under the `i` flag
(used by `isCountToken`). -/
def isKMB (c : Char) : Bool := lowerChar c == 'k' || lowerChar c == 'm' || lowerChar c == 'b'

/-- JavaScript `String.prototype.trim()` restricted to the whitespace
characters of `isWS`. -/
def trimL (l : List Char) : List Char := ((l.dropWhile isWS).reverse.dropWhile isWS).reverse

/-! ### Exact decimal parsing and rounding

`parseFloatDec l` models JS `parseFloat` on the strings reachable from the
count-token call sites of the source (characters drawn from digits / `.`
after comma stripping and case folding; no sign, exponent or leading
whitespace forms occur there): the longest prefix `digits [. digits]` is
parsed, returning `none` when no digit is consumed (JS `NaN`).  The value
is returned exactly as (mantissa, fracLen) with value mantissa / 10^fracLen. -/

def parseFloatDec (l : List Char) : Option (Nat × Nat) :=
  let intPart := l.takeWhile isDigit
  let rest := l.dropWhile isDigit
  let fracPart :=
    match rest with
    | '.' :: r => r.takeWhile isDigit
    | _ => []
  if intPart.isEmpty && fracPart.isEmpty then none
  else some (natOfDigits (intPart ++ fracPart), fracPart.length)

/-- `roundHalfUp a b` is `Math.round` applied to the exact non-negative
rational `a / b` (`b > 0`): round half away from zero, which for
non-negative arguments is `⌊a/b + 1/2⌋ = (2a + b) / (2b)` in `Nat`
division. -/
def roundHalfUp (a b : Nat) : Nat := (2 * a + b) / (2 * b)

/-! ### Count/Unit Normalizer -/

/-- `normalizeCount` (pipeline source, lines 115-127).

```js
function normalizeCount(raw) {
  if (raw == null) return null;
  const s = String(raw).trim();
  if (!s) return null;
  const m = s.match(/^([\d.,]+)\s*([KM])?$/i);
  if (!m) return null;
  const num = parseFloat(m[1].replaceAll(",", ""));
  if (Number.isNaN(num)) return null;
  const suffix = (m[2] || "").toUpperCase();
  const mult = suffix === "K" ? 1_000 : suffix === "M" ? 1_000_000 : 1;
  return Math.round(num * mult);
}
```

The anchored regex is compiled away: since the character classes `[\d.,]`,
`\s` and `[KM]` are pairwise disjoint, the match succeeds exactly when the
trimmed string is a nonempty run of `[\d.,]` characters, optionally followed
by whitespace and one `[KM]` character; group 1 is the `[\d.,]` run. -/
def normalizeCount (raw : Option String) : Option Nat :=
  match raw with
  | none => none
  | some str =>
    let s := trimL str.data
    if s.isEmpty then none
    else
      let g1 := s.takeWhile isNumChar
      let rest := (s.dropWhile isNumChar).dropWhile isWS
      let multOpt : Option Nat :=
        match rest with
        | [] => some 1
        | [c] => if isKM c then some (if lowerChar c == 'k' then 1000 else 1000000) else none
        | _ => none
      if g1.isEmpty then none
      else
        match multOpt, parseFloatDec (g1.filter (fun c => c != ',')) with
        | some mult, some (m, k) => some (roundHalfUp (m * mult) (10 ^ k))
        | _, _ => none

/-- `parseCount` (pipeline source, lines 1124-1141).

```js
function parseCount(str) {
  if (!str) return 0;
  let clean = str.replace(/,/g, "").toUpperCase();
  let multiplier = 1;
  if (clean.endsWith("K")) { multiplier = 1000; clean = clean.slice(0, -1); }
  else if (clean.endsWith("M")) { multiplier = 1000000; clean = clean.slice(0, -1); }
  else if (clean.endsWith("B")) { multiplier = 1000000000; clean = clean.slice(0, -1); }
  const val = parseFloat(clean);
  return isNaN(val) ? 0 : Math.floor(val * multiplier);
}
```

`Math.floor` on the exact non-negative value m/10^k times the multiplier is
`Nat` division.  The values reachable here are non-negative, so the result
is modelled as `Nat`. -/
def parseCount (str : Option String) : Nat :=
  match str with
  | none => 0
  | some s =>
    if s.isEmpty then 0
    else
      let clean := (s.data.filter (fun c => c != ',')).map upperChar
      let (mult, body) :=
        if clean.getLast? == some 'K' then (1000, clean.dropLast)
        else if clean.getLast? == some 'M' then (1000000, clean.dropLast)
        else if clean.getLast? == some 'B' then (1000000000, clean.dropLast)
        else (1, clean)
      match parseFloatDec body with
      | none => 0
      | some (m, k) => m * mult / 10 ^ k

/-! ### Ledger Store

The Ledger's backing collection (`output/Allreel.json`) is a JSON array of
reel records.  `upsertReelEntry` models the in-memory read-modify-write of
the source (load, find-or-create, mutate, stamp `lastUpdated`, save): the
load/save round trip through the file is the identity on the collection, so
it is modelled directly as a list transformation; the timestamp taken by
`new Date().toISOString()` is an explicit parameter. -/

/-- One ledger record.  Fields absent at creation (JS `undefined`) and JS
`null` are both `none`. -/
structure ReelEntry where
  linkUrl : String
  downloaded : Bool
  filePath : Option String
  mp3FilePath : Option String
  isConverted : Bool
  lastUpdated : Nat
  serverMP4Url : Option String := none
  serverMP3Url : Option String := none
  caption : Option String := none
  thumbnailUrl : Option String := none
  likes : Option String := none
  comments : Option String := none
  views : Option String := none
  repostCount : Option Int := none
  reshareCount : Option Int := none
deriving DecidableEq

/-- The fresh record created by `upsertReelEntry` when no record for the
link exists (pipeline source, lines 52-62). -/
def freshEntry (linkUrl : String) (now : Nat) : ReelEntry :=
  { linkUrl := linkUrl, downloaded := false, filePath := none, mp3FilePath := none,
    isConverted := false, lastUpdated := now }

/-- Replace the first element satisfying `p` (the JS pattern of mutating the
object returned by `Array.prototype.find` in place). -/
def replaceFirst (p : α → Bool) (f : α → α) : List α → List α
  | [] => []
  | x :: xs => if p x then f x :: xs else x :: replaceFirst p f xs

/-- `upsertReelEntry` (pipeline source, lines 49-69): find-or-create the
record for `linkUrl`, apply `mutate` to it, stamp `lastUpdated`, persist.
The source stamps `lastUpdated` after running `mutate`, so the stamp wins
over anything `mutate` wrote to it. -/
def upsertReelEntry (now : Nat) (linkUrl : String) (mutate : ReelEntry → ReelEntry)
    (list : List ReelEntry) : List ReelEntry :=
  if list.any (fun e => e.linkUrl == linkUrl) then
    replaceFirst (fun e => e.linkUrl == linkUrl)
      (fun e => { mutate e with lastUpdated := now }) list
  else list ++ [{ mutate (freshEntry linkUrl now) with lastUpdated := now }]

/-- Number of records for a given link in the collection. -/
def countFor (linkUrl : String) (l : List ReelEntry) : Nat :=
  (l.filter (fun e => e.linkUrl == linkUrl)).length

/-- `list.find(e => e.linkUrl === linkUrl)`. -/
def findRecord (linkUrl : String) (l : List ReelEntry) : Option ReelEntry :=
  l.find? (fun e => e.linkUrl == linkUrl)

/-! ### Ledger load (`loadAllReels`) at the file level, for C6.

The backing file can be missing, unreadable, or hold any text.  JSON values
and the external `JSON.parse` are abstracted: `loadAllReels` is parametric
in the parser, which either throws (`Except.error`) or returns a `Json`
value. -/

inductive Json where
  | null : Json
  | bool (b : Bool) : Json
  | num (n : Int) : Json
  | str (s : String) : Json
  | arr (elems : List Json) : Json
  | obj (fields : List (String × Json)) : Json

/-- State of the Ledger's backing file. -/
inductive FileState where
  | missing : FileState
  | unreadable : FileState
  | content (raw : String) : FileState

/-- `fs.readFile` on the backing file: missing or unreadable files throw. -/
def readBackingFile : FileState → Except Unit String
  | .missing => .error ()
  | .unreadable => .error ()
  | .content raw => .ok raw

/-- `loadAllReels` (pipeline source, lines 33-42):

```js
async function loadAllReels() {
  try {
    const raw = await fs.readFile(ALL_REEL_PATH, "utf8");
    const parsed = JSON.parse(raw);
    return Array.isArray(parsed) ? parsed : [];
  } catch {
    // File missing or invalid JSON – start fresh.
    return [];
  }
}
```

Total by construction: every failure path returns the empty collection. -/
def loadAllReels (parse : String → Except Unit Json) (file : FileState) : List Json :=
  match readBackingFile file with
  | .error _ => []
  | .ok raw =>
    match parse raw with
    | .error _ => []
    | .ok (.arr elems) => elems
    | .ok _ => []

/-! ### Download Orchestrator (`processLinkInTab`), for C3 and C7.

The browser-driven steps are abstracted as oracle inputs: `reelPage` is the
scraped metadata when the native reel page URL could be built (`none` when
`getReelPageUrl` fails), `clicked` is whether the redirector's
"Download Video" button was found and clicked, and `latest` is the result of
`getLatestDownloadedFile()` after the settle sleep.  Filesystem and network
exceptions inside the `try` are not modelled: they abort the attempt before
any `downloaded = true` write, which only strengthens nothing proved here.
The returned `Bool` records whether the link was submitted to the
redirector web app (the `fastvideosave.net` form submission). -/

structure LatestFile where
  fileName : String
  filePath : String
  mtimeMs : Nat
deriving DecidableEq

/-- Metadata scraped from the native reel page (`scrapeReelMetadataFromPage`);
every field is `null` when not found. -/
structure ReelMeta where
  caption : Option String := none
  thumbnailUrl : Option String := none
  likeCount : Option Int := none
  commentCount : Option Int := none
  viewCount : Option Int := none
  repostCount : Option Int := none
  reshareCount : Option Int := none
deriving DecidableEq

structure LinkInputs where
  reelPage : Option ReelMeta
  clicked : Bool
  latest : Option LatestFile
deriving DecidableEq

/-- The metadata-upsert mutation (pipeline source, lines 1421-1431): each
field is written only when the scraped value is non-null; numeric counts are
stringified. -/
def applyReelMeta (meta : ReelMeta) (e : ReelEntry) : ReelEntry :=
  let e := match meta.caption with | some c => { e with caption := some c } | none => e
  let e := match meta.thumbnailUrl with | some t => { e with thumbnailUrl := some t } | none => e
  let e := match meta.likeCount with | some n => { e with likes := some (toString n) } | none => e
  let e := match meta.commentCount with
    | some n => { e with comments := some (toString n) } | none => e
  let e := match meta.viewCount with | some n => { e with views := some (toString n) } | none => e
  match meta.repostCount with
  | some n =>
    { e with repostCount := some n,
             reshareCount := some (match meta.reshareCount with | some m => m | none => n) }
  | none => e

/-- `processLinkInTab` (pipeline source, lines 1387-1497). -/
def processLinkInTab (now : Nat) (linkUrl : String) (inp : LinkInputs)
    (ledger : List ReelEntry) : List ReelEntry × Bool :=
  if ledger.any (fun e => e.linkUrl == linkUrl && e.downloaded) then (ledger, false)
  else
    let l1 := upsertReelEntry now linkUrl (fun e => { e with downloaded := false }) ledger
    let l2 :=
      match inp.reelPage with
      | some meta => upsertReelEntry now linkUrl (applyReelMeta meta) l1
      | none => l1
    let l3 :=
      if inp.clicked then
        match inp.latest with
        | some latest =>
          upsertReelEntry now linkUrl
            (fun e => { e with downloaded := true, filePath := some latest.filePath }) l2
        | none => upsertReelEntry now linkUrl (fun e => { e with downloaded := true }) l2
      else l2
    (l3, true)

/-- Runs a sequence of orchestrator calls (each with its own timestamp, link
and oracle inputs) against an evolving ledger and reports whether any call
for `target` submitted it to the redirector. -/
def anySubmitFor (target : String) : List ReelEntry → List (Nat × String × LinkInputs) → Bool
  | _, [] => false
  | ledger, (now, link, inp) :: rest =>
    (link == target && (processLinkInTab now link inp ledger).2) ||
      anySubmitFor target (processLinkInTab now link inp ledger).1 rest

/-- The ledger holds a record for `target` that is already marked
downloaded. -/
def hasDownloadedRecord (target : String) (l : List ReelEntry) : Prop :=
  ∃ e ∈ l, e.linkUrl = target ∧ e.downloaded = true

/-! ### Substring and path utilities -/

/-- `startsWithL pat l`: `pat` is an initial segment of `l`. -/
def startsWithL : List Char → List Char → Bool
  | [], _ => true
  | _ :: _, [] => false
  | p :: ps, c :: cs => p == c && startsWithL ps cs

/-- `containsSubL hay pat`: `pat` occurs contiguously in `hay`
(JS `String.prototype.includes`). -/
def containsSubL (hay pat : List Char) : Bool :=
  match hay with
  | [] => pat.isEmpty
  | _ :: t => startsWithL pat hay || containsSubL t pat

def strContains (hay needle : String) : Bool := containsSubL hay.data needle.data

def crdownloadSuffix : List Char := ['.', 'c', 'r', 'd', 'o', 'w', 'n', 'l', 'o', 'a', 'd']

/-- `filePath.replace(/\.crdownload$/i, "")`. -/
def stripCrdownload (p : String) : String :=
  let l := p.data
  if 11 ≤ l.length && ((l.drop (l.length - 11)).map lowerChar == crdownloadSuffix) then
    String.mk (l.take (l.length - 11))
  else p

/-- `inputPath.replace(/\.[^/.]+$/, "")`: strip a final `.ext` segment whose
extension is nonempty and free of `/` and `.`. -/
def dropExtension (p : String) : String :=
  let r := p.data.reverse
  let ext := r.takeWhile (fun c => !(c == '.') && !(c == '/'))
  if ext.isEmpty then p
  else
    match r.drop ext.length with
    | '.' :: rest => String.mk rest.reverse
    | _ => p

/-! ### Conversion Stage (`convertMP4toMP3`), for C1 and C2.

Per eligible ledger record the stage probes for an audio stream, converts
and uploads.  The external effects are oracle inputs per record:
`hasAudio` is the result of the `/Stream.*Audio/` test on the transcoder
probe output (the probe itself never throws — its promise carries a
`.catch`), `convertOk` is whether the `ffmpeg` extraction subprocess
succeeded (its failure throws into the per-record `catch`, which leaves the
record un-marked), and `mp3Url`/`mp4Url`/`thumbUrl` are the upload results
(`uploadFileToServer` and `uploadImageFromUrlToServer` catch internally and
return `null` on failure, so uploads never throw). -/

structure ConvEnv where
  hasAudio : Bool
  convertOk : Bool
  mp3Url : Option String
  mp4Url : Option String
  thumbUrl : Option String
deriving DecidableEq

/-- One iteration of the `convertMP4toMP3` record loop (pipeline source,
lines 947-998).  Returns the updated record, whether the upload of the
original video file was attempted, and whether the record completed the
sequence (i.e. contributed `changed = true`). -/
def convertEntry (env : ConvEnv) (e : ReelEntry) : ReelEntry × Bool × Bool :=
  if !e.downloaded then (e, false, false)
  else if e.isConverted then (e, false, false)
  else
    match e.filePath with
    | none => (e, false, false)
    | some fp =>
      let inputPath := stripCrdownload fp
      let outputPath :=
        match e.mp3FilePath with
        | some mp => mp
        | none => dropExtension inputPath ++ ".mp3"
      let finalOutputPath := if inputPath == outputPath then outputPath ++ ".mp3" else outputPath
      if env.hasAudio then
        if !env.convertOk then (e, false, false)
        else
          let e1 := { e with mp3FilePath := some finalOutputPath, serverMP3Url := env.mp3Url }
          let e2 := { e1 with serverMP4Url := env.mp4Url }
          let e3 :=
            if e2.thumbnailUrl.isSome then
              match env.thumbUrl with
              | some u => { e2 with thumbnailUrl := some u }
              | none => e2
            else e2
          ({ e3 with isConverted := true }, true, true)
      else
        let e2 := { e with serverMP4Url := env.mp4Url }
        let e3 :=
          if e2.thumbnailUrl.isSome then
            match env.thumbUrl with
            | some u => { e2 with thumbnailUrl := some u }
            | none => e2
          else e2
        ({ e3 with isConverted := true }, true, true)

/-- Engagement counters attached to one extracted reel link of a profile
record (`p.links` entries). -/
structure LinkStat where
  href : String
  views : Option String := none
  likes : Option String := none
  comments : Option String := none
deriving DecidableEq

/-- The stats back-fill lookup (pipeline source, lines 1005-1018): first
profile whose `links` array holds a stat whose `href` is a substring of the
entry's `linkUrl`. -/
def findStat (linkUrl : String) : List (List LinkStat) → Option LinkStat
  | [] => none
  | links :: rest =>
    match links.find? (fun l => strContains linkUrl l.href) with
    | some s => some s
    | none => findStat linkUrl rest

/-- Apply a found stat to the entry; a match sets `changed` even when the
stat carries no counters. -/
def backfillEntry (profileLinks : List (List LinkStat)) (e : ReelEntry) : ReelEntry × Bool :=
  match findStat e.linkUrl profileLinks with
  | none => (e, false)
  | some s =>
    let e := match s.views with | some v => { e with views := some v } | none => e
    let e := match s.likes with | some v => { e with likes := some v } | none => e
    let e := match s.comments with | some v => { e with comments := some v } | none => e
    (e, true)

/-- The full Conversion Stage sweep (pipeline source, lines 941-1032):
process every record, then back-fill stats from the cycle's profile
records; returns the updated ledger and the `changed` flag.  The oracle
environment is indexed by the record's position. -/
def convertMP4toMP3 (envs : Nat → ConvEnv) (profileLinks : List (List LinkStat))
    (reels : List ReelEntry) : List ReelEntry × Bool :=
  let step1 := reels.enum.map (fun p => convertEntry (envs p.1) p.2)
  let reels1 := step1.map (fun r => r.1)
  let changed1 := step1.any (fun r => r.2.2)
  let step2 := reels1.map (backfillEntry profileLinks)
  let reels2 := step2.map (fun r => r.1)
  (reels2, changed1 || step2.any (fun r => r.2))

/-! ### Scheduler, for C2.

`main`'s `setInterval` callback (pipeline source, lines 1595-1619) over the
module-level state `userDataCount`, `googleKeepAliveCount`,
`userDataRetrival`.  A tick that fires while `userDataRetrival` is set does
nothing (in particular it cannot start a second harvesting cycle while one
is awaited).  `schedFinish` is the only place the flag is cleared: the tail
of `convertMP4toMP3` (lines 1023-1031) runs `userDataRetrival = false`
inside `if (changed)`; a cycle that completes with `changed` false, or
whose exception is caught by the interval callback's `try/catch`, leaves
the flag set. -/

def targetUserDataCount : Nat := 3

def targetGoogleKeepAliveCount : Nat := 15

structure SchedState where
  userDataCount : Nat
  googleKeepAliveCount : Nat
  userDataRetrival : Bool
deriving DecidableEq

/-- One `setInterval` firing: returns the new state, whether a harvesting
cycle was launched, and whether a camouflage (keep-alive) cycle ran. -/
def schedTick (s : SchedState) : SchedState × Bool × Bool :=
  if s.userDataRetrival then (s, false, false)
  else
    let u := s.userDataCount + 1
    let g := s.googleKeepAliveCount + 1
    if targetUserDataCount ≤ u then
      ({ userDataCount := 0, googleKeepAliveCount := g, userDataRetrival := true }, true, false)
    else if targetGoogleKeepAliveCount ≤ g then
      ({ userDataCount := u, googleKeepAliveCount := 0, userDataRetrival := false }, false, true)
    else
      ({ userDataCount := u, googleKeepAliveCount := g, userDataRetrival := false }, false, false)

/-- Completion of a harvesting cycle with the Conversion Stage's `changed`
flag: the busy flag is cleared only inside `if (changed)`. -/
def schedFinish (changed : Bool) (s : SchedState) : SchedState :=
  if changed then { s with userDataRetrival := false } else s

/-! ### Sync Uploader: content sync (`updateContentReels`), for C10.

`new URL(r.linkUrl).pathname.split("/").filter(Boolean)` is modelled by
`pathnameParts` for absolute http(s) URLs; any other string makes the URL
constructor throw, which the source catches and skips (`none`). -/

def splitOnChar (sep : Char) : List Char → List (List Char)
  | [] => [[]]
  | c :: rest =>
    let r := splitOnChar sep rest
    if c == sep then [] :: r
    else
      match r with
      | h :: t => (c :: h) :: t
      | [] => [[c]]

def pathnameParts (url : String) : Option (List String) :=
  let l := url.data
  if startsWithL "https://".data l then
    some ((((((l.drop 8).dropWhile (fun c => !(c == '/'))).takeWhile
      (fun c => !(c == '?') && !(c == '#'))) |> splitOnChar '/').filter
        (fun p => !p.isEmpty)).map String.mk)
  else if startsWithL "http://".data l then
    some ((((((l.drop 7).dropWhile (fun c => !(c == '/'))).takeWhile
      (fun c => !(c == '?') && !(c == '#'))) |> splitOnChar '/').filter
        (fun p => !p.isEmpty)).map String.mk)
  else none

/-- One payload item of the content-sync PUT body (pipeline source,
lines 1189-1204). -/
structure PayloadReel where
  instagram_media_id : String
  code : String
  media_type : Nat
  like_count : Nat
  play_count : Nat
  comment_count : Nat
  caption_text : String
  video_url : Option String
  thumbnail_url : String
  audio_url : Option String
  video_duration : Nat
  has_audio : Bool
  repost_count : Int
  reshare_count : Int
deriving DecidableEq

def payloadReel (e : ReelEntry) (code : String) : PayloadReel :=
  { instagram_media_id := "sb_" ++ code,
    code := code,
    media_type := 2,
    like_count := parseCount e.likes,
    play_count := parseCount e.views,
    comment_count := parseCount e.comments,
    caption_text := e.caption.getD "",
    video_url := e.serverMP4Url,
    thumbnail_url := e.thumbnailUrl.getD "",
    audio_url := e.serverMP3Url,
    video_duration := 0,
    has_audio := true,
    repost_count := e.repostCount.getD 0,
    reshare_count := e.reshareCount.getD 0 }

/-- Insertion into `reelsByUser` (a JS object keyed by username, insertion
order preserved). -/
def groupInsert (m : List (String × List (ReelEntry × String))) (k : String)
    (v : ReelEntry × String) : List (String × List (ReelEntry × String)) :=
  if m.any (fun p => p.1 == k) then
    m.map (fun p => if p.1 == k then (p.1, p.2 ++ [v]) else p)
  else m ++ [(k, [v])]

/-- One iteration of the grouping loop (pipeline source, lines 1162-1185):
skip records without an uploaded media URL, skip unparsable URLs and paths
with fewer than 3 segments, else group `(record, code)` under
`parts[0]`. -/
def groupStep (acc : List (String × List (ReelEntry × String))) (r : ReelEntry) :
    List (String × List (ReelEntry × String)) :=
  if r.serverMP4Url.isSome then
    match pathnameParts r.linkUrl with
    | none => acc
    | some parts =>
      match parts with
      | username :: _ :: code :: _ => groupInsert acc username (r, code)
      | _ => acc
  else acc

/-- `updateContentReels` (pipeline source, lines 1146-1235), up to the HTTP
PUTs: the per-username payload lists, in grouping order. -/
def updateContentReels (reels : List ReelEntry) : List (String × List PayloadReel) :=
  (reels.foldl groupStep []).map (fun g => (g.1, g.2.map (fun p => payloadReel p.1 p.2)))

/-- A concrete ledger record used in the content-sync witness: uploaded
video, no MP3. -/
def c10Entry : ReelEntry :=
  { linkUrl := "https://www.instagram.com/alice/reel/ABC/", downloaded := true,
    filePath := some "/dl/a.mp4", mp3FilePath := none, isConverted := true,
    lastUpdated := 1, serverMP4Url := some "https://cdn/a.mp4" }

/-! ### Extractor: per-anchor engagement counters, for C9.

The per-anchor counter derivation of `extractUserHrefPaths` (pipeline
source, lines 579-627).  The DOM is abstracted to what the three queries
see: `lis` holds, per `<li>` under the anchor's overlay list, the
`textContent` of its `<span>`s; `viewSpanText` is the `textContent` of the
element next to the recognised "View count icon" SVG (`none` when the SVG
or sibling is absent); `textNodes` holds the values of all text nodes under
the anchor in document order (the tree-walker fallback). -/

/-- `cleanToken`: strip all whitespace (`replace(/\s+/g, "")` then
`trim()`). -/
def cleanToken (t : String) : String := String.mk (t.data.filter (fun c => !(isWS c)))

/-- Tail of the count-token regex after the leading digit run:
`(?:[.,]\d+)?[KMB]?$`. -/
def countTokenTail : List Char → Bool
  | [] => true
  | c :: rest =>
    if isKMB c then rest.isEmpty
    else if c == '.' || c == ',' then
      !(rest.takeWhile isDigit).isEmpty &&
        (match rest.dropWhile isDigit with
         | [] => true
         | [k] => isKMB k
         | _ => false)
    else false

/-- `isCountToken`: `/^\d+(?:[.,]\d+)?[KMB]?$/i`. -/
def isCountToken (t : String) : Bool :=
  !(t.data.takeWhile isDigit).isEmpty && countTokenTail (t.data.dropWhile isDigit)

structure AnchorView where
  lis : List (List String)
  viewSpanText : Option String
  textNodes : List String
deriving DecidableEq

/-- `pickFirstCountUnder`: first span whose cleaned text is count-like. -/
def pickFirstCountUnder (spans : List String) : Option String :=
  (spans.map cleanToken).find? isCountToken

/-- `collectCountsInOrder`: count-like cleaned text nodes in document
order, capped at 10. -/
def collectCountsInOrder (nodes : List String) : List String :=
  ((nodes.map cleanToken).filter (fun t => !t.isEmpty && isCountToken t)).take 10

/-- The structured heuristics (overlay list + view-count icon) before the
fallback: returns (views, likes, comments). -/
def structuredCounts (a : AnchorView) : Option String × Option String × Option String :=
  let liCounts := (a.lis.map pickFirstCountUnder).reduceOption
  let views :=
    match a.viewSpanText with
    | some t => if isCountToken (cleanToken t) then some (cleanToken t) else none
    | none => none
  (views, liCounts[0]?, liCounts[1]?)

/-- The full per-anchor counter derivation including the text-node
fallback (`??=` only fills counters still missing). -/
def anchorCounts (a : AnchorView) : Option String × Option String × Option String :=
  let s := structuredCounts a
  let views := s.1
  let likes := s.2.1
  let comments := s.2.2
  if views.isNone || likes.isNone || comments.isNone then
    let nums := collectCountsInOrder a.textNodes
    if 3 ≤ nums.length then
      (views <|> nums[2]?, likes <|> nums[0]?, comments <|> nums[1]?)
    else if nums.length == 2 then
      (views, likes <|> nums[0]?, comments <|> nums[1]?)
    else if nums.length == 1 then
      (views <|> nums[0]?, likes, comments)
    else (views, likes, comments)
  else (views, likes, comments)

/-! ### Profile Extractor (`parseProfileStatsFromHtml` / `extractProfileStats`),
for C8.

The HTML-level regex that locates the
`<meta name="description" content="...">` tag is abstracted to the
already-extracted capture `metaDescription` of `PageHtml` (`none` when the
tag regex does not match), and likewise the profile-picture `<img>` regexes
to `profilePicUrl`; `headerText` is the visible text that the DOM fallback
(`document.querySelector("header").innerText` etc.) would read.  The
picture re-resolution and download steps (they touch only the picture
fields) are modelled as the identity on the extracted URL.

The search regex `([\d.,]+\s*[KM]?)\s+label` (flags `i`) is compiled into
`tryCountAt`/`findCountTok` using the disjointness of its character
classes: at each position, a maximal nonempty `[\d.,]` run must be
followed either by whitespace, one `[KM]` character, at least one
whitespace and the label (capture: run + whitespace + suffix char), or by
at least one whitespace and the label directly (greedy `\s*` backtracks one
character into `\s+`; capture: run + all but the last whitespace char).
The labels `followers?`, `following`, `posts?` are searched by their
mandatory prefixes ("follower", "following", "post"): the optional final
`s` changes neither matchability nor the capture. -/

/-- Case-insensitive (ASCII) match of pattern `p` at the head of a list. -/
def ciMatchAt : List Char → List Char → Bool
  | [], _ => true
  | _ :: _, [] => false
  | p :: ps, c :: cs => lowerChar p == lowerChar c && ciMatchAt ps cs

/-- One attempt of the count-before-label regex at the head of `l`;
returns the group-1 capture. -/
def tryCountAt (label : List Char) (l : List Char) : Option (List Char) :=
  let ds := l.takeWhile isNumChar
  if ds.isEmpty then none
  else
    let rest := l.dropWhile isNumChar
    let w := rest.takeWhile isWS
    match rest.dropWhile isWS with
    | [] => none
    | c :: r3 =>
      if isKM c && !(r3.takeWhile isWS).isEmpty && ciMatchAt label (r3.dropWhile isWS) then
        some (ds ++ w ++ [c])
      else if !w.isEmpty && ciMatchAt label (c :: r3) then
        some (ds ++ w.dropLast)
      else none

/-- Leftmost search of the count-before-label regex. -/
def findCountTok (label : List Char) : List Char → Option (List Char)
  | [] => none
  | c :: t =>
    match tryCountAt label (c :: t) with
    | some cap => some cap
    | none => findCountTok label t

/-- Worker for `replaceAllL`: `skip` counts characters still to drop from
an occurrence already replaced (structural recursion on the list, so the
function evaluates by kernel reduction). -/
def replAll (pat rep : List Char) : Nat → List Char → List Char
  | _, [] => []
  | n + 1, _ :: t => replAll pat rep n t
  | 0, c :: rest =>
    if startsWithL pat (c :: rest) && !pat.isEmpty then
      rep ++ replAll pat rep (pat.length - 1) rest
    else c :: replAll pat rep 0 rest

/-- `String.prototype.replaceAll` with a plain-string pattern:
left-to-right, non-overlapping, continuing after each replacement. -/
def replaceAllL (pat rep : List Char) (l : List Char) : List Char := replAll pat rep 0 l

/-- `decodeHtmlEntities` (pipeline source, lines 105-113): the five entity
replacements, applied in source order. -/
def decodeHtmlEntities (l : List Char) : List Char :=
  replaceAllL "&gt;".data ['>']
    (replaceAllL "&lt;".data ['<']
      (replaceAllL "&#039;".data [Char.ofNat 39]
        (replaceAllL "&quot;".data ['"']
          (replaceAllL "&amp;".data ['&'] l))))

structure PageHtml where
  metaDescription : Option String
  profilePicUrl : Option String
  headerText : String

structure ProfileStats where
  source : String
  postsRaw : Option String
  followersRaw : Option String
  followingRaw : Option String
  posts : Option Nat
  followers : Option Nat
  following : Option Nat
  profilePicUrl : Option String
deriving DecidableEq

def followerLabel : List Char := ['f', 'o', 'l', 'l', 'o', 'w', 'e', 'r']

def followingLabel : List Char := ['f', 'o', 'l', 'l', 'o', 'w', 'i', 'n', 'g']

def postLabel : List Char := ['p', 'o', 's', 't']

/-- `parseProfileStatsFromHtml` (pipeline source, lines 129-170). -/
def parseProfileStatsFromHtml (page : PageHtml) : ProfileStats :=
  let content := decodeHtmlEntities (page.metaDescription.getD "").data
  let followersRaw := (findCountTok followerLabel content).map String.mk
  let followingRaw := (findCountTok followingLabel content).map String.mk
  let postsRaw := (findCountTok postLabel content).map String.mk
  { source := if content.isEmpty then "none" else "meta:description",
    postsRaw := postsRaw,
    followersRaw := followersRaw,
    followingRaw := followingRaw,
    posts := normalizeCount postsRaw,
    followers := normalizeCount followersRaw,
    following := normalizeCount followingRaw,
    profilePicUrl := page.profilePicUrl }

/-- `extractProfileStats` (pipeline source, lines 180-259), with the
returned `Bool` recording whether the DOM-visible-text fallback tier was
consulted.  The fallback applies the same three label searches to the
rendered header text, without entity decoding, exactly as `findInText`
does. -/
def extractProfileStats (page : PageHtml) : ProfileStats × Bool :=
  let fromHtml := parseProfileStatsFromHtml page
  if fromHtml.posts.isSome || fromHtml.followers.isSome || fromHtml.following.isSome then
    (fromHtml, false)
  else
    let text := page.headerText.data
    ({ source := "dom:visibleText",
       postsRaw := (findCountTok postLabel text).map String.mk,
       followersRaw := (findCountTok followerLabel text).map String.mk,
       followingRaw := (findCountTok followingLabel text).map String.mk,
       posts := normalizeCount ((findCountTok postLabel text).map String.mk),
       followers := normalizeCount ((findCountTok followerLabel text).map String.mk),
       following := normalizeCount ((findCountTok followingLabel text).map String.mk),
       profilePicUrl := fromHtml.profilePicUrl }, true)

/-! ### Statement apparatus for C8: meta descriptions containing the three
labelled tokens with the labels in any (ASCII) case and any order.  A case
variant of a label word is `casedWord mask word`, one Boolean per letter
selecting the uppercase form — exactly the strings the `i` flag makes the
label pattern match. -/

def applyCase (b : Bool) (c : Char) : Char := if b then upperChar c else c

def casedWord (mask : List Bool) (word : List Char) : List Char :=
  List.zipWith applyCase mask word

def followersWord : List Char := ['f', 'o', 'l', 'l', 'o', 'w', 'e', 'r', 's']

def followingWord : List Char := ['f', 'o', 'l', 'l', 'o', 'w', 'i', 'n', 'g']

def postsWord : List Char := ['p', 'o', 's', 't', 's']

/-- `"150"`-style labelled token: digits, one space, a cased label word. -/
def tokenOf (digits : List Char) (mask : List Bool) (word : List Char) : List Char :=
  digits ++ ' ' :: casedWord mask word

/-- Three tokens joined by `", "`. -/
def sepJoin (t1 t2 t3 : List Char) : List Char :=
  t1 ++ ',' :: ' ' :: t2 ++ ',' :: ' ' :: t3

/-- A letter of a label word: not a `[\d.,]` or whitespace character, not
`&`, not a `[KM]` suffix character — in either case variant. -/
def goodLetter (c : Char) : Bool :=
  !isNumChar c && !isWS c && !(c == '&') && !isKM c &&
  !isNumChar (upperChar c) && !isWS (upperChar c) && !(upperChar c == '&') &&
  !isKM (upperChar c)

-- ===== THEOREMS =====

/-! ### Generic list helpers -/

theorem takeWhile_all_append {p : α → Bool} {l : List α} (h : ∀ c ∈ l, p c = true)
    {x : α} (hx : p x = false) (t : List α) :
    (l ++ x :: t).takeWhile p = l ∧ (l ++ x :: t).dropWhile p = x :: t := by
  induction l with
  | nil => simp [hx]
  | cons a l ih =>
    have ha : p a = true := h a (List.mem_cons_self a l)
    have := ih (fun c hc => h c (List.mem_cons_of_mem a hc))
    simp [List.takeWhile_cons, List.dropWhile_cons, ha, this.1, this.2]

theorem takeWhile_all {p : α → Bool} {l : List α} (h : ∀ c ∈ l, p c = true) :
    l.takeWhile p = l ∧ l.dropWhile p = [] := by
  induction l with
  | nil => simp
  | cons a l ih =>
    have ha : p a = true := h a (List.mem_cons_self a l)
    have := ih (fun c hc => h c (List.mem_cons_of_mem a hc))
    simp [List.takeWhile_cons, List.dropWhile_cons, ha, this.1, this.2]

theorem dropWhile_none {p : α → Bool} {l : List α} (h : ∀ c ∈ l, p c = false) :
    l.dropWhile p = l := by
  cases l with
  | nil => rfl
  | cons a l => simp [List.dropWhile_cons, h a (List.mem_cons_self a l)]

theorem trimL_eq_self {l : List Char} (h : ∀ c ∈ l, isWS c = false) : trimL l = l := by
  unfold trimL
  rw [dropWhile_none h, dropWhile_none (fun c hc => h c (List.mem_reverse.mp hc)),
    List.reverse_reverse]

theorem isNumChar_not_ws {c : Char} (h : isNumChar c = true) : isWS c = false := by
  simp only [isNumChar, isDigit, isWS, Bool.or_eq_true, Bool.and_eq_true, decide_eq_true_eq,
    beq_iff_eq, Bool.or_eq_false_iff, beq_eq_false_iff_ne, ne_eq] at h ⊢
  omega

/-! ### C4: the Count/Unit Normalizer -/

/-- The exact round-to-nearest reading of `roundHalfUp`: it is the floor of
the exact rational value `a / b + 1/2`, i.e. rounding half up. -/
theorem roundHalfUp_eq_floor (a b : Nat) (hb : 0 < b) :
    roundHalfUp a b = ⌊(a : ℚ) / (b : ℚ) + 1 / 2⌋₊ := by
  unfold roundHalfUp
  have hb' : (b : ℚ) ≠ 0 := by positivity
  have : (a : ℚ) / (b : ℚ) + 1 / 2 = ((2 * a + b : ℕ) : ℚ) / ((2 * b : ℕ) : ℚ) := by
    push_cast
    field_simp
    ring
  rw [this, Nat.floor_div_nat, Nat.floor_natCast]

/-- **C4 (counterexample).**  The claim says the Normalizer maps every token
`digits[.,digits]*[K|M|B]?` to the parsed number times 1e3/1e6/1e9,
*rounded to the nearest integer*.  Both normalizer functions refute it:
`normalizeCount` rejects the `B` suffix outright (its regex suffix class is
`[KM]`), returning `null` on `"2B"` instead of 2000000000; and `parseCount`
uses `Math.floor`, so `"1.5"` yields 1 where rounding to the nearest integer
would yield 2. -/
theorem claim4_counterexample :
    normalizeCount (some "2B") = none ∧ parseCount (some "1.5") = 1 ∧ (1 : Nat) ≠ 2 := by
  refine ⟨by decide, by decide, by decide⟩

/-- **C4 (amended).**  `normalizeCount` accepts only the suffixes `K`/`M`
(case-insensitive): for every nonempty token `g` of `[\d.,]` characters and
optional suffix it returns the `parseFloat` value of `g` (commas removed)
times 1e3 for `K` / 1e6 for `M`, rounded half-up to the nearest integer,
and it returns `null` for a `B`-suffixed token.  On the spec's four example
tokens both `normalizeCount` and `parseCount` yield the claimed values
338, 1234, 12300 and 4500000. -/
theorem claim4_amended :
    (∀ g : List Char, g ≠ [] → (∀ c ∈ g, isNumChar c = true) →
      (normalizeCount (some (String.mk g)) =
        (parseFloatDec (g.filter (fun c => c != ','))).map
          (fun p => roundHalfUp p.1 (10 ^ p.2))) ∧
      (∀ suf ∈ [('K', 1000), ('k', 1000), ('M', 1000000), ('m', 1000000)],
        normalizeCount (some (String.mk (g ++ [suf.1]))) =
          (parseFloatDec (g.filter (fun c => c != ','))).map
            (fun p => roundHalfUp (p.1 * suf.2) (10 ^ p.2))) ∧
      normalizeCount (some (String.mk (g ++ ['B']))) = none) ∧
    normalizeCount (some "338") = some 338 ∧
    normalizeCount (some "1,234") = some 1234 ∧
    normalizeCount (some "12.3K") = some 12300 ∧
    normalizeCount (some "4.5M") = some 4500000 ∧
    parseCount (some "338") = 338 ∧
    parseCount (some "1,234") = 1234 ∧
    parseCount (some "12.3K") = 12300 ∧
    parseCount (some "4.5M") = 4500000 := by
  refine ⟨?_, by decide, by decide, by decide, by decide, by decide, by decide, by decide,
    by decide⟩
  intro g hne hnum
  have hws : ∀ c ∈ g, isWS c = false := fun c hc => isNumChar_not_ws (hnum c hc)
  have hone : ∀ (c : Char), isWS c = false → isNumChar c = false →
      trimL (g ++ [c]) = g ++ [c] := by
    intro c hc1 hc2
    refine trimL_eq_self ?_
    intro d hd
    rcases List.mem_append.mp hd with h | h
    · exact hws d h
    · simp only [List.mem_singleton] at h; subst h; exact hc1
  have hsplit : ∀ (c : Char), isNumChar c = false →
      (g ++ [c]).takeWhile isNumChar = g ∧ (g ++ [c]).dropWhile isNumChar = [c] :=
    fun c hc => takeWhile_all_append hnum hc []
  have hgself := takeWhile_all hnum
  have hgE : g.isEmpty = false := by
    cases g with
    | nil => exact absurd rfl hne
    | cons a l => rfl
  refine ⟨?_, ?_, ?_⟩
  · show normalizeCount (some (String.mk g)) = _
    unfold normalizeCount
    simp only [trimL_eq_self hws, hgself.1, hgself.2, List.dropWhile_nil, hgE,
      Bool.false_eq_true, if_false]
    cases hp : parseFloatDec (g.filter (fun c => c != ',')) with
    | none => simp
    | some p => cases p with | mk m k => simp
  · intro suf hsuf
    have hcases : ∀ (c : Char) (mult : Nat), isNumChar c = false → isWS c = false →
        isKM c = true → (if lowerChar c == 'k' then 1000 else 1000000) = mult →
        normalizeCount (some (String.mk (g ++ [c]))) =
          (parseFloatDec (g.filter (fun c => c != ','))).map
            (fun p => roundHalfUp (p.1 * mult) (10 ^ p.2)) := by
      intro c mult hc1 hc2 hc3 hc4
      unfold normalizeCount
      simp only [hone c hc2 hc1, (hsplit c hc1).1, (hsplit c hc1).2, hgE,
        Bool.false_eq_true, if_false]
      have : ([c].dropWhile isWS) = [c] := by
        simp [List.dropWhile_cons, hc2]
      simp only [this, hc3, if_true, hc4]
      cases hp : parseFloatDec (g.filter (fun c => c != ',')) with
      | none => simp
      | some p => cases p with | mk m k => simp
    fin_cases hsuf
    · exact hcases 'K' 1000 (by decide) (by decide) (by decide) (by decide)
    · exact hcases 'k' 1000 (by decide) (by decide) (by decide) (by decide)
    · exact hcases 'M' 1000000 (by decide) (by decide) (by decide) (by decide)
    · exact hcases 'm' 1000000 (by decide) (by decide) (by decide) (by decide)
  · unfold normalizeCount
    simp only [hone 'B' (by decide) (by decide), (hsplit 'B' (by decide)).1,
      (hsplit 'B' (by decide)).2, hgE, Bool.false_eq_true, if_false]
    have : (['B'].dropWhile isWS) = ['B'] := by decide
    have hB : isKM 'B' = false := by decide
    cases hp : parseFloatDec (g.filter (fun c => c != ',')) with
    | none => simp [this, hB]
    | some p => cases p with | mk m k => simp [this, hB]

/-- **C4 (witness).**  The amended theorem applied at the concrete token
`"12.3"` with suffix `K`. -/
theorem claim4_witness :
    normalizeCount (some (String.mk (['1', '2', '.', '3'] ++ ['K']))) =
      (parseFloatDec (['1', '2', '.', '3'].filter (fun c => c != ','))).map
        (fun p => roundHalfUp (p.1 * 1000) (10 ^ p.2)) := by
  have h := (claim4_amended.1 ['1', '2', '.', '3'] (by decide) (by decide)).2.1
  exact h ('K', 1000) (by decide)

/-! ### Ledger helper lemmas -/

theorem replaceFirst_cons_pos (p : α → Bool) (f : α → α) {x : α} (xs : List α)
    (hx : p x = true) : replaceFirst p f (x :: xs) = f x :: xs := by
  simp [replaceFirst, hx]

theorem replaceFirst_cons_neg (p : α → Bool) (f : α → α) {x : α} (xs : List α)
    (hx : p x = false) : replaceFirst p f (x :: xs) = x :: replaceFirst p f xs := by
  simp [replaceFirst, hx]

theorem mem_replaceFirst_of_neg {p : α → Bool} {f : α → α} {e : α} {l : List α}
    (he : e ∈ l) (hne : p e = false) : e ∈ replaceFirst p f l := by
  induction l with
  | nil => cases he
  | cons x xs ih =>
    rcases List.mem_cons.mp he with rfl | hmem
    · rw [replaceFirst_cons_neg p f xs hne]
      exact List.mem_cons_self e _
    · cases hx : p x with
      | true =>
        rw [replaceFirst_cons_pos p f xs hx]
        exact List.mem_cons_of_mem _ hmem
      | false =>
        rw [replaceFirst_cons_neg p f xs hx]
        exact List.mem_cons_of_mem _ (ih hmem)

theorem countFor_replaceFirst (L : String) (f : ReelEntry → ReelEntry)
    (hf : ∀ e, (f e).linkUrl = e.linkUrl) (l : List ReelEntry) :
    countFor L (replaceFirst (fun e => e.linkUrl == L) f l) = countFor L l := by
  induction l with
  | nil => rfl
  | cons x xs ih =>
    cases hx : (x.linkUrl == L) with
    | true =>
      have hfx : ((f x).linkUrl == L) = true := by rw [hf]; exact hx
      rw [replaceFirst_cons_pos (fun e => e.linkUrl == L) f xs hx]
      simp only [countFor, List.filter_cons, hfx, hx, if_true, List.length_cons]
    | false =>
      rw [replaceFirst_cons_neg (fun e => e.linkUrl == L) f xs hx]
      simpa only [countFor, List.filter_cons, hx, Bool.false_eq_true, if_false] using ih

theorem countFor_zero_of_any_false {L : String} {l : List ReelEntry}
    (h : l.any (fun e => e.linkUrl == L) = false) : countFor L l = 0 := by
  unfold countFor
  rw [List.length_eq_zero, List.filter_eq_nil_iff]
  intro a ha
  simp only [List.any_eq_false] at h
  simpa using h a ha

theorem any_of_countFor_pos {L : String} {l : List ReelEntry}
    (h : 0 < countFor L l) : l.any (fun e => e.linkUrl == L) = true := by
  unfold countFor at h
  rw [List.length_pos] at h
  obtain ⟨e, he⟩ := List.exists_mem_of_ne_nil _ h
  have := List.mem_filter.mp he
  exact List.any_eq_true.mpr ⟨e, this.1, this.2⟩

theorem find?_append_all_neg {p : α → Bool} {l : List α} (h : ∀ e ∈ l, p e = false)
    (l2 : List α) : (l ++ l2).find? p = l2.find? p := by
  induction l with
  | nil => rfl
  | cons x xs ih =>
    rw [List.cons_append, List.find?_cons_of_neg]
    · exact ih fun e he => h e (List.mem_cons_of_mem x he)
    · simp [h x (List.mem_cons_self x xs)]

theorem find?_replaceFirst (p : α → Bool) (g : α → α) {l : List α}
    (hany : l.any p = true) (hg : ∀ e, p (g e) = p e) :
    ∃ prev ∈ l, p prev = true ∧ (replaceFirst p g l).find? p = some (g prev) := by
  induction l with
  | nil => simp at hany
  | cons x xs ih =>
    cases hx : p x with
    | true =>
      refine ⟨x, List.mem_cons_self x xs, hx, ?_⟩
      rw [replaceFirst_cons_pos p g xs hx, List.find?_cons_of_pos]
      rw [hg]; exact hx
    | false =>
      have hxs : xs.any p = true := by
        simp only [List.any_cons, hx, Bool.false_or] at hany
        exact hany
      obtain ⟨prev, hmem, hp, hfind⟩ := ih hxs
      refine ⟨prev, List.mem_cons_of_mem x hmem, hp, ?_⟩
      rw [replaceFirst_cons_neg p g xs hx, List.find?_cons_of_neg, hfind]
      simp [hx]

theorem find_upsert (now : Nat) (L : String) (f : ReelEntry → ReelEntry)
    (hf : ∀ e, (f e).linkUrl = e.linkUrl) (l : List ReelEntry) :
    ∃ prev, findRecord L (upsertReelEntry now L f l) =
      some { f prev with lastUpdated := now } := by
  unfold upsertReelEntry findRecord
  cases hany : l.any (fun e => e.linkUrl == L) with
  | true =>
    rw [if_pos rfl]
    obtain ⟨prev, _, _, hfind⟩ :=
      find?_replaceFirst (fun e => e.linkUrl == L) (fun e => { f e with lastUpdated := now })
        hany
        (fun e => by simp only; rw [show ({ f e with lastUpdated := now } : ReelEntry).linkUrl =
          (f e).linkUrl from rfl, hf])
    exact ⟨prev, hfind⟩
  | false =>
    rw [if_neg (by simp)]
    refine ⟨freshEntry L now, ?_⟩
    rw [find?_append_all_neg (fun e he => by
      simp only [List.any_eq_false] at hany
      simpa using hany e he)]
    rw [List.find?_cons_of_pos]
    rw [show ({ f (freshEntry L now) with lastUpdated := now } : ReelEntry).linkUrl =
      (f (freshEntry L now)).linkUrl from rfl, hf]
    simp [freshEntry]

/-! ### C5: Ledger upsert idempotence -/

/-- **C5 (counterexample).**  The claim quantifies over *every* ledger
state.  A state that already violates the one-record-per-link invariant
(two records for the same link, representable in the backing JSON array)
is not repaired by `upsert`: after two no-op upserts both records are still
there, so the collection does not hold "exactly one record for the link". -/
theorem claim5_counterexample :
    countFor "L"
      (upsertReelEntry 2 "L" id (upsertReelEntry 1 "L" id
        [freshEntry "L" 0, freshEntry "L" 0])) = 2 ∧ (2 : Nat) ≠ 1 := by
  refine ⟨by decide, by decide⟩

/-- **C5 (amended).**  For every ledger state satisfying the data-model
invariant (at most one record for the link), calling `upsert` twice with the
same link and a no-op mutation leaves exactly one record for the link, and
the second call changes nothing except that record's `lastUpdated`
timestamp (it is exactly `replaceFirst` of the fresh `lastUpdated` stamp on
the state after the first call). -/
theorem claim5_amended (L : String) (t1 t2 : Nat) (l : List ReelEntry)
    (h : countFor L l ≤ 1) :
    countFor L (upsertReelEntry t2 L id (upsertReelEntry t1 L id l)) = 1 ∧
    upsertReelEntry t2 L id (upsertReelEntry t1 L id l) =
      replaceFirst (fun e => e.linkUrl == L) (fun e => { e with lastUpdated := t2 })
        (upsertReelEntry t1 L id l) := by
  have h1 : countFor L (upsertReelEntry t1 L id l) = 1 := by
    unfold upsertReelEntry
    cases hany : l.any (fun e => e.linkUrl == L) with
    | true =>
      rw [if_pos rfl]
      rw [countFor_replaceFirst L (fun e => { id e with lastUpdated := t1 }) (fun e => rfl)]
      have hpos : 0 < countFor L l := by
        obtain ⟨e, hmem, hp⟩ := List.any_eq_true.mp hany
        unfold countFor
        rw [List.length_pos]
        intro hnil
        have hmemf : e ∈ l.filter (fun e => e.linkUrl == L) :=
          List.mem_filter.mpr ⟨hmem, hp⟩
        rw [hnil] at hmemf
        cases hmemf
      omega
    | false =>
      rw [if_neg (by simp)]
      unfold countFor
      rw [List.filter_append]
      have h0 : countFor L l = 0 := countFor_zero_of_any_false hany
      unfold countFor at h0
      rw [List.length_append, h0]
      simp [freshEntry]
  set u1 := upsertReelEntry t1 L id l with hu1
  have hany1 : u1.any (fun e => e.linkUrl == L) = true :=
    any_of_countFor_pos (by omega)
  have hsecond : upsertReelEntry t2 L id u1 =
      replaceFirst (fun e => e.linkUrl == L)
        (fun e => { e with lastUpdated := t2 }) u1 := by
    unfold upsertReelEntry
    rw [if_pos hany1]
    simp only [id_eq]
  refine ⟨?_, hsecond⟩
  rw [hsecond, countFor_replaceFirst L (fun e => { e with lastUpdated := t2 }) (fun e => rfl)]
  exact h1

/-- **C5 (witness).**  The amended theorem at a concrete one-record
ledger. -/
theorem claim5_witness :
    countFor "L" (upsertReelEntry 9 "L" id (upsertReelEntry 7 "L" id
      [freshEntry "L" 5])) = 1 ∧
    upsertReelEntry 9 "L" id (upsertReelEntry 7 "L" id [freshEntry "L" 5]) =
      replaceFirst (fun e => e.linkUrl == "L") (fun e => { e with lastUpdated := 9 })
        (upsertReelEntry 7 "L" id [freshEntry "L" 5]) :=
  claim5_amended "L" 7 9 [freshEntry "L" 5] (by decide)

/-! ### C6: Ledger load never fails -/

/-- **C6 (confirmed).**  For every state of the backing file — missing,
unreadable, malformed JSON (the parser throws), or JSON that is not an
array — `loadAllReels` returns the empty collection.  It is a total
function (every failure is caught), so it never raises. -/
theorem claim6 (parse : String → Except Unit Json) (file : FileState)
    (h : file = .missing ∨ file = .unreadable ∨
      (∃ raw, file = .content raw ∧ parse raw = .error ()) ∨
      (∃ raw j, file = .content raw ∧ parse raw = .ok j ∧ ∀ elems, j ≠ .arr elems)) :
    loadAllReels parse file = [] := by
  rcases h with rfl | rfl | ⟨raw, rfl, hp⟩ | ⟨raw, j, rfl, hp, hj⟩
  · rfl
  · rfl
  · simp [loadAllReels, readBackingFile, hp]
  · cases j with
    | arr elems => exact absurd rfl (hj elems)
    | null => simp [loadAllReels, readBackingFile, hp]
    | bool b => simp [loadAllReels, readBackingFile, hp]
    | num n => simp [loadAllReels, readBackingFile, hp]
    | str s => simp [loadAllReels, readBackingFile, hp]
    | obj fields => simp [loadAllReels, readBackingFile, hp]

/-- **C6 (witness).**  A parser that always throws, against a missing
file. -/
theorem claim6_witness : loadAllReels (fun _ => .error ()) .missing = [] :=
  claim6 (fun _ => .error ()) .missing (.inl rfl)

/-! ### C3: downloaded links are never re-submitted -/

theorem hasdl_any {L : String} {l : List ReelEntry} (h : hasDownloadedRecord L l) :
    l.any (fun e => e.linkUrl == L && e.downloaded) = true := by
  obtain ⟨e, hmem, h1, h2⟩ := h
  exact List.any_eq_true.mpr ⟨e, hmem, by simp [h1, h2]⟩

theorem upsert_preserves_hasdl {L u : String} {l : List ReelEntry}
    (h : hasDownloadedRecord L l) (hne : u ≠ L) (t : Nat) (f : ReelEntry → ReelEntry) :
    hasDownloadedRecord L (upsertReelEntry t u f l) := by
  obtain ⟨e, hmem, h1, h2⟩ := h
  unfold upsertReelEntry
  cases hany : l.any (fun e => e.linkUrl == u) with
  | true =>
    rw [if_pos rfl]
    refine ⟨e, ?_, h1, h2⟩
    exact mem_replaceFirst_of_neg hmem (by simp [h1, Ne.symm hne])
  | false =>
    rw [if_neg (by simp)]
    exact ⟨e, List.mem_append_left _ hmem, h1, h2⟩

theorem processLink_skip {L : String} {l : List ReelEntry} (h : hasDownloadedRecord L l)
    (t : Nat) (inp : LinkInputs) : processLinkInTab t L inp l = (l, false) := by
  unfold processLinkInTab
  rw [if_pos (hasdl_any h)]

theorem processLink_preserves {L u : String} {l : List ReelEntry}
    (h : hasDownloadedRecord L l) (t : Nat) (inp : LinkInputs) :
    hasDownloadedRecord L (processLinkInTab t u inp l).1 := by
  by_cases hu : u = L
  · subst hu
    rw [processLink_skip h]
    exact h
  · unfold processLinkInTab
    cases hany : l.any (fun e => e.linkUrl == u && e.downloaded) with
    | true =>
      rw [if_pos rfl]
      exact h
    | false =>
      rw [if_neg (by simp)]
      have h1 := upsert_preserves_hasdl h hu t (fun e => { e with downloaded := false })
      obtain ⟨rp, cl, lt⟩ := inp
      cases rp <;> cases cl <;> cases lt <;>
        dsimp only <;> simp only [eq_self_iff_true, if_true, Bool.false_eq_true, if_false] <;>
        first
          | exact h1
          | exact upsert_preserves_hasdl h1 hu t _
          | exact upsert_preserves_hasdl (upsert_preserves_hasdl h1 hu t _) hu t _

/-- **C3 (confirmed).**  If the ledger holds a record for `L` with
`downloaded = true`, then across any sequence of Download Orchestrator runs
(any timestamps, links and oracle inputs, in this cycle or later ones) the
link `L` is never submitted to the redirector web app: every call for `L`
short-circuits on the ledger check, and no call can remove the record or
reset its `downloaded` flag. -/
theorem claim3 (L : String) (ledger : List ReelEntry)
    (calls : List (Nat × String × LinkInputs)) (h : hasDownloadedRecord L ledger) :
    anySubmitFor L ledger calls = false := by
  induction calls generalizing ledger with
  | nil => rfl
  | cons c rest ih =>
    obtain ⟨t, u, inp⟩ := c
    unfold anySubmitFor
    rw [Bool.or_eq_false_iff]
    refine ⟨?_, ih _ (processLink_preserves h t inp)⟩
    cases huL : u == L with
    | true =>
      have : u = L := by simpa using huL
      subst this
      rw [processLink_skip h]
      simp
    | false => simp

/-- **C3 (witness).**  A concrete downloaded record, with a later call for
the same link: it is not re-submitted. -/
theorem claim3_witness :
    anySubmitFor "https://www.instagram.com/u/reel/A/"
      [{ freshEntry "https://www.instagram.com/u/reel/A/" 0 with downloaded := true }]
      [(1, "https://www.instagram.com/u/reel/A/", ⟨none, true, none⟩)] = false :=
  claim3 _ _ _
    ⟨{ freshEntry "https://www.instagram.com/u/reel/A/" 0 with downloaded := true },
      List.mem_singleton.mpr rfl, rfl, rfl⟩

/-! ### C7: optimistic downloaded marking -/

theorem downloaded_after_upsert (now : Nat) (L : String) (l2 : List ReelEntry)
    (latest : Option LatestFile) :
    ∃ e, findRecord L
        (match latest with
         | some lf => upsertReelEntry now L
             (fun e => { e with downloaded := true, filePath := some lf.filePath }) l2
         | none => upsertReelEntry now L (fun e => { e with downloaded := true }) l2)
      = some e ∧
      e.downloaded = true ∧ ∀ lf, latest = some lf → e.filePath = some lf.filePath := by
  cases latest with
  | some lf =>
    obtain ⟨prev, hp⟩ := find_upsert now L
      (fun e => { e with downloaded := true, filePath := some lf.filePath }) (fun e => rfl) l2
    exact ⟨_, hp, rfl, fun lf2 hlf => by cases hlf; rfl⟩
  | none =>
    obtain ⟨prev, hp⟩ := find_upsert now L
      (fun e => { e with downloaded := true }) (fun e => rfl) l2
    exact ⟨_, hp, rfl, fun lf2 hlf => by cases hlf⟩

/-- **C7 (confirmed).**  For a per-link attempt that reaches the redirector
(no prior downloaded record) and whose "Download Video" action was invoked,
after the settle interval the ledger record for the link is marked
`downloaded = true` whether or not a new file was detected; and when a
most-recently-modified file was found its path is recorded on the
record. -/
theorem claim7 (now : Nat) (linkUrl : String) (inp : LinkInputs) (ledger : List ReelEntry)
    (hskip : ledger.any (fun e => e.linkUrl == linkUrl && e.downloaded) = false)
    (hclick : inp.clicked = true) :
    ∃ e, findRecord linkUrl (processLinkInTab now linkUrl inp ledger).1 = some e ∧
      e.downloaded = true ∧
      ∀ lf, inp.latest = some lf → e.filePath = some lf.filePath := by
  obtain ⟨rp, cl, lt⟩ := inp
  cases cl with
  | false => cases hclick
  | true =>
    clear hclick
    unfold processLinkInTab
    rw [if_neg (by simp [hskip])]
    dsimp only
    simp only [eq_self_iff_true, if_true]
    exact downloaded_after_upsert now linkUrl
      (match rp with
       | some meta => upsertReelEntry now linkUrl (applyReelMeta meta)
           (upsertReelEntry now linkUrl (fun e => { e with downloaded := false }) ledger)
       | none => upsertReelEntry now linkUrl (fun e => { e with downloaded := false }) ledger)
      lt

/-- **C7 (witness).**  The theorem at a concrete attempt (empty ledger,
button clicked, a file detected). -/
theorem claim7_witness :
    ∃ e, findRecord "L"
        (processLinkInTab 3 "L" ⟨none, true, some ⟨"v.mp4", "/dl/v.mp4", 10⟩⟩ []).1 = some e ∧
      e.downloaded = true ∧
      ∀ lf, (some (⟨"v.mp4", "/dl/v.mp4", 10⟩ : LatestFile)) = some lf →
        e.filePath = some lf.filePath :=
  claim7 3 "L" ⟨none, true, some ⟨"v.mp4", "/dl/v.mp4", 10⟩⟩ [] (by decide) rfl

/-! ### C1: no-audio records in the Conversion Stage -/

/-- **C1 (counterexample).**  The claim says a record whose probe reports no
audio stream is *not* marked `isConverted = true`.  On an eligible no-audio
record the loop body skips only the MP3 extraction, uploads the original
video, and then unconditionally runs `entry.isConverted = true` (no
exception can occur on that path, since the uploads catch internally) — so
the record *is* marked converted. -/
theorem claim1_counterexample :
    (convertEntry
        ⟨false, true, none, some "https://cdn/x.mp4", none⟩
        { linkUrl := "https://www.instagram.com/u/reel/C1X/", downloaded := true,
          filePath := some "/dl/v.mp4", mp3FilePath := none, isConverted := false,
          lastUpdated := 0 }).1.isConverted = true ∧
    (convertEntry
        ⟨false, true, none, some "https://cdn/x.mp4", none⟩
        { linkUrl := "https://www.instagram.com/u/reel/C1X/", downloaded := true,
          filePath := some "/dl/v.mp4", mp3FilePath := none, isConverted := false,
          lastUpdated := 0 }).2.1 = true := by
  refine ⟨by decide, by decide⟩

/-- **C1 (amended).**  For every eligible record (downloaded, not yet
converted, file path present) whose transcoder probe reports no audio
stream, the Conversion Stage still attempts the upload of the original
video file, performs no MP3 conversion (`mp3FilePath` and `serverMP3Url`
are untouched), and marks `isConverted = true` for the record — skipping a
missing audio stream is not an error, so the sequence completes. -/
theorem claim1_amended (env : ConvEnv) (e : ReelEntry)
    (hd : e.downloaded = true) (hc : e.isConverted = false)
    (hf : e.filePath.isSome = true) (ha : env.hasAudio = false) :
    (convertEntry env e).2.1 = true ∧
    (convertEntry env e).1.isConverted = true ∧
    (convertEntry env e).1.serverMP3Url = e.serverMP3Url ∧
    (convertEntry env e).1.mp3FilePath = e.mp3FilePath := by
  obtain ⟨fp, hfp⟩ := Option.isSome_iff_exists.mp hf
  simp only [convertEntry, hd, hc, ha, hfp, Bool.not_true, Bool.false_eq_true, if_false]
  split
  · split <;> simp
  · simp

/-- **C1 (witness).**  The amended theorem at a concrete eligible no-audio
record. -/
theorem claim1_witness :
    (convertEntry ⟨false, true, none, some "https://cdn/x.mp4", none⟩
        { linkUrl := "https://www.instagram.com/u/reel/W1/", downloaded := true,
          filePath := some "/dl/w.mp4", mp3FilePath := none, isConverted := false,
          lastUpdated := 4 }).2.1 = true ∧
    (convertEntry ⟨false, true, none, some "https://cdn/x.mp4", none⟩
        { linkUrl := "https://www.instagram.com/u/reel/W1/", downloaded := true,
          filePath := some "/dl/w.mp4", mp3FilePath := none, isConverted := false,
          lastUpdated := 4 }).1.isConverted = true ∧
    (convertEntry ⟨false, true, none, some "https://cdn/x.mp4", none⟩
        { linkUrl := "https://www.instagram.com/u/reel/W1/", downloaded := true,
          filePath := some "/dl/w.mp4", mp3FilePath := none, isConverted := false,
          lastUpdated := 4 }).1.serverMP3Url =
      ({ linkUrl := "https://www.instagram.com/u/reel/W1/", downloaded := true,
          filePath := some "/dl/w.mp4", mp3FilePath := none, isConverted := false,
          lastUpdated := 4 } : ReelEntry).serverMP3Url ∧
    (convertEntry ⟨false, true, none, some "https://cdn/x.mp4", none⟩
        { linkUrl := "https://www.instagram.com/u/reel/W1/", downloaded := true,
          filePath := some "/dl/w.mp4", mp3FilePath := none, isConverted := false,
          lastUpdated := 4 }).1.mp3FilePath =
      ({ linkUrl := "https://www.instagram.com/u/reel/W1/", downloaded := true,
          filePath := some "/dl/w.mp4", mp3FilePath := none, isConverted := false,
          lastUpdated := 4 } : ReelEntry).mp3FilePath :=
  claim1_amended _ _ rfl rfl rfl rfl

/-! ### C2: the scheduler's busy flag -/

/-- **C2 (counterexample).**  From state (userDataCount = 2, busy clear) a
tick launches a harvesting cycle and sets the busy flag; the cycle runs to
completion — here a sweep over an empty ledger, which reports
`changed = false` — yet `schedFinish` leaves the busy flag set.  So the flag
is *not* cleared exactly when the cycle completes: a completed cycle that
recorded no changes (and likewise a caught failure) keeps it set forever. -/
theorem claim2_counterexample :
    (schedTick ⟨2, 0, false⟩).2.1 = true ∧
    (schedTick ⟨2, 0, false⟩).1.userDataRetrival = true ∧
    (convertMP4toMP3 (fun _ => ⟨false, true, none, none, none⟩) [] []).2 = false ∧
    (schedFinish (convertMP4toMP3 (fun _ => ⟨false, true, none, none, none⟩) [] []).2
        (schedTick ⟨2, 0, false⟩).1).userDataRetrival = true := by
  refine ⟨by decide, by decide, by decide, by decide⟩

/-- **C2 (amended).**  (1) While the busy flag is set, a tick does nothing:
no harvesting or camouflage cycle can start, so at most one harvesting
cycle is in flight.  (2) A tick that launches a harvesting cycle sets the
busy flag.  (3) Completion clears the flag exactly when the cycle reported
`changed = true`; a completion with `changed = false` (or a caught failure,
which never reaches the clearing statement) leaves it set. -/
theorem claim2_amended :
    (∀ s : SchedState, s.userDataRetrival = true → schedTick s = (s, false, false)) ∧
    (∀ s : SchedState, (schedTick s).2.1 = true → (schedTick s).1.userDataRetrival = true) ∧
    (∀ (changed : Bool) (s : SchedState),
      (schedFinish changed s).userDataRetrival = (s.userDataRetrival && !changed)) := by
  refine ⟨?_, ?_, ?_⟩
  · intro s h
    simp [schedTick, h]
  · intro s h
    unfold schedTick at h ⊢
    by_cases hb : s.userDataRetrival = true
    · rw [if_pos hb] at h
      cases h
    · rw [if_neg hb] at h ⊢
      by_cases h3 : targetUserDataCount ≤ s.userDataCount + 1
      · rw [if_pos h3] at h ⊢
      · rw [if_neg h3] at h ⊢
        by_cases h15 : targetGoogleKeepAliveCount ≤ s.googleKeepAliveCount + 1
        · rw [if_pos h15] at h
          cases h
        · rw [if_neg h15] at h
          cases h
  · intro changed s
    cases changed with
    | true => simp [schedFinish]
    | false => simp [schedFinish]

/-- **C2 (witness).**  The amended theorem at concrete states: a busy state
absorbs a tick, and completion with `changed = true` clears the flag. -/
theorem claim2_witness :
    schedTick ⟨0, 0, true⟩ = (⟨0, 0, true⟩, false, false) ∧
    (schedFinish true ⟨0, 0, true⟩).userDataRetrival = (true && !true) :=
  ⟨claim2_amended.1 ⟨0, 0, true⟩ rfl, claim2_amended.2.2 true ⟨0, 0, true⟩⟩

/-! ### C10: hard-coded content-sync payload fields -/

theorem mem_groupInsert {m : List (String × List (ReelEntry × String))} {k : String}
    {v p : ReelEntry × String} {u : String} {items : List (ReelEntry × String)}
    (hg : (u, items) ∈ groupInsert m k v) (hp : p ∈ items) :
    (∃ items0, (u, items0) ∈ m ∧ p ∈ items0) ∨ p = v := by
  unfold groupInsert at hg
  by_cases hany : m.any (fun p => p.1 == k) = true
  · rw [if_pos hany] at hg
    obtain ⟨q, hq, hfq⟩ := List.mem_map.mp hg
    by_cases hqk : (q.1 == k) = true
    · rw [if_pos hqk] at hfq
      have hu : q.1 = u := congrArg Prod.fst hfq
      have hit : q.2 ++ [v] = items := congrArg Prod.snd hfq
      rw [← hit] at hp
      rcases List.mem_append.mp hp with h | h
      · exact .inl ⟨q.2, by rw [← hu]; exact hq, h⟩
      · exact .inr (List.mem_singleton.mp h)
    · rw [if_neg hqk] at hfq
      exact .inl ⟨items, hfq ▸ hq, hp⟩
  · rw [if_neg hany] at hg
    rcases List.mem_append.mp hg with h | h
    · exact .inl ⟨items, h, hp⟩
    · have := List.mem_singleton.mp h
      have hit : items = [v] := congrArg Prod.snd this
      rw [hit] at hp
      exact .inr (List.mem_singleton.mp hp)

theorem mem_groupStep {acc : List (String × List (ReelEntry × String))} {r : ReelEntry}
    {p : ReelEntry × String} {u : String} {items : List (ReelEntry × String)}
    (hg : (u, items) ∈ groupStep acc r) (hp : p ∈ items) :
    (∃ items0, (u, items0) ∈ acc ∧ p ∈ items0) ∨
      (p.1 = r ∧ r.serverMP4Url.isSome = true) := by
  unfold groupStep at hg
  by_cases hmp4 : r.serverMP4Url.isSome = true
  · rw [if_pos hmp4] at hg
    cases hparts : pathnameParts r.linkUrl with
    | none =>
      rw [hparts] at hg
      exact .inl ⟨items, hg, hp⟩
    | some parts =>
      rw [hparts] at hg
      match parts with
      | [] => exact .inl ⟨items, hg, hp⟩
      | [a] => exact .inl ⟨items, hg, hp⟩
      | [a, b] => exact .inl ⟨items, hg, hp⟩
      | a :: b :: c :: rest =>
        rcases mem_groupInsert hg hp with h | h
        · exact .inl h
        · exact .inr ⟨congrArg Prod.fst h, hmp4⟩
  · rw [if_neg hmp4] at hg
    exact .inl ⟨items, hg, hp⟩

theorem mem_groupFold {l : List ReelEntry} :
    ∀ {acc : List (String × List (ReelEntry × String))} {u : String}
      {items : List (ReelEntry × String)} {p : ReelEntry × String},
    (u, items) ∈ l.foldl groupStep acc → p ∈ items →
    (∃ items0, (u, items0) ∈ acc ∧ p ∈ items0) ∨
      (p.1 ∈ l ∧ p.1.serverMP4Url.isSome = true) := by
  induction l with
  | nil =>
    intro acc u items p hg hp
    exact .inl ⟨items, hg, hp⟩
  | cons r rest ih =>
    intro acc u items p hg hp
    rw [List.foldl_cons] at hg
    rcases ih hg hp with ⟨items0, hm, hp0⟩ | ⟨hmem, hmp4⟩
    · rcases mem_groupStep hm hp0 with h | ⟨hpr, hmp4⟩
      · exact .inl h
      · exact .inr ⟨by rw [hpr]; exact List.mem_cons_self r rest, by rw [hpr]; exact hmp4⟩
    · exact .inr ⟨List.mem_cons_of_mem r hmem, hmp4⟩

/-- **C10 (confirmed).**  Every payload item built by the content sync has
`has_audio` hard-coded to `true` and `video_duration` hard-coded to `0` —
even for records where no audio stream was found and no MP3 was produced —
and its `audio_url` is `null` exactly when the originating ledger record
has no uploaded MP3 URL. -/
theorem claim10 (reels : List ReelEntry) (g : String × List PayloadReel)
    (hg : g ∈ updateContentReels reels) (it : PayloadReel) (hit : it ∈ g.2) :
    it.has_audio = true ∧ it.video_duration = 0 ∧
    ∃ r code, r ∈ reels ∧ r.serverMP4Url.isSome = true ∧ it = payloadReel r code ∧
      (it.audio_url = none ↔ r.serverMP3Url = none) := by
  unfold updateContentReels at hg
  obtain ⟨g0, hg0, hfg⟩ := List.mem_map.mp hg
  have hsnd : g0.2.map (fun p => payloadReel p.1 p.2) = g.2 := congrArg Prod.snd hfg
  rw [← hsnd] at hit
  obtain ⟨p, hpmem, hpit⟩ := List.mem_map.mp hit
  have : (g0.1, g0.2) ∈ reels.foldl groupStep [] := by
    rw [show ((g0.1, g0.2) : String × List (ReelEntry × String)) = g0 from rfl]
    exact hg0
  rcases mem_groupFold this hpmem with ⟨items0, hm, _⟩ | ⟨hmem, hmp4⟩
  · cases hm
  · refine ⟨by rw [← hpit]; rfl, by rw [← hpit]; rfl, p.1, p.2, hmem, hmp4, hpit.symm, ?_⟩
    rw [← hpit]
    exact Iff.rfl

/-- **C10 (witness).**  The theorem at a one-record ledger whose record has
an uploaded video but no MP3. -/
theorem claim10_witness :
    (payloadReel c10Entry "ABC").has_audio = true ∧
    (payloadReel c10Entry "ABC").video_duration = 0 ∧
    ∃ r code, r ∈ [c10Entry] ∧ r.serverMP4Url.isSome = true ∧
      payloadReel c10Entry "ABC" = payloadReel r code ∧
      ((payloadReel c10Entry "ABC").audio_url = none ↔ r.serverMP3Url = none) :=
  claim10 [c10Entry] ("alice", [payloadReel c10Entry "ABC"]) (by decide)
    (payloadReel c10Entry "ABC") (by decide)

/-! ### C9: the text-node fallback assignment -/

/-- **C9 (counterexample).**  The claim says that when only one count-like
token is found, it is assigned positionally as likes.  The code's
single-token branch assigns it to *views* instead ("Some grids show only
views"): on an anchor with no structured counters and the single text token
`"5"`, the result is views = "5", likes = null. -/
theorem claim9_counterexample :
    anchorCounts ⟨[], none, ["5"]⟩ = (some "5", none, none) ∧
    (anchorCounts ⟨[], none, ["5"]⟩).2.1 ≠ some "5" := by
  refine ⟨by decide, by decide⟩

/-- **C9 (amended).**  For every anchor whose structured heuristics yielded
none of the three counters, the fallback assigns the count-like tokens in
document order as follows: with three or more tokens, the first as likes,
the second as comments, the third as views; with exactly two, the first as
likes and the second as comments (views stays missing); with exactly one,
that token as *views* (likes and comments stay missing). -/
theorem claim9_amended (a : AnchorView) (h : structuredCounts a = (none, none, none)) :
    anchorCounts a =
      (if 3 ≤ (collectCountsInOrder a.textNodes).length then
         (collectCountsInOrder a.textNodes)[2]?
       else if (collectCountsInOrder a.textNodes).length = 1 then
         (collectCountsInOrder a.textNodes)[0]?
       else none,
       if 2 ≤ (collectCountsInOrder a.textNodes).length then
         (collectCountsInOrder a.textNodes)[0]?
       else none,
       (collectCountsInOrder a.textNodes)[1]?) := by
  unfold anchorCounts
  rw [h]
  rcases hn : collectCountsInOrder a.textNodes with _ | ⟨x, _ | ⟨y, _ | ⟨z, rest⟩⟩⟩
  · simp
  · simp
  · simp
  · have h3 : 3 ≤ (x :: y :: z :: rest).length := by simp [List.length_cons]
    have h2 : 2 ≤ (x :: y :: z :: rest).length := by simp [List.length_cons]
    have h1 : ¬((x :: y :: z :: rest).length = 1) := by simp [List.length_cons]
    simp [h3, h2, h1]

/-- **C9 (witness).**  The amended theorem at a concrete two-token
anchor. -/
theorem claim9_witness :
    anchorCounts ⟨[], none, ["7", "8"]⟩ =
      (if 3 ≤ (collectCountsInOrder (["7", "8"] : List String)).length then
         (collectCountsInOrder (["7", "8"] : List String))[2]?
       else if (collectCountsInOrder (["7", "8"] : List String)).length = 1 then
         (collectCountsInOrder (["7", "8"] : List String))[0]?
       else none,
       if 2 ≤ (collectCountsInOrder (["7", "8"] : List String)).length then
         (collectCountsInOrder (["7", "8"] : List String))[0]?
       else none,
       (collectCountsInOrder (["7", "8"] : List String))[1]?) :=
  claim9_amended ⟨[], none, ["7", "8"]⟩ (by decide)

/-! ### C8 machinery: case-variant words and the label scanner -/

theorem lowerChar_applyCase (b : Bool) (c : Char) : lowerChar (applyCase b c) = lowerChar c := by
  cases b
  · rfl
  · show lowerChar (upperChar c) = lowerChar c
    unfold upperChar
    split <;> rfl

theorem goodLetter_applyCase {c : Char} (h : goodLetter c = true) (b : Bool) :
    isNumChar (applyCase b c) = false ∧ isWS (applyCase b c) = false ∧
    (applyCase b c == '&') = false ∧ isKM (applyCase b c) = false := by
  simp only [goodLetter, Bool.and_eq_true, Bool.not_eq_true'] at h
  obtain ⟨⟨⟨⟨⟨⟨⟨h1, h2⟩, h3⟩, h4⟩, h5⟩, h6⟩, h7⟩, h8⟩ := h
  cases b
  · exact ⟨h1, h2, h3, h4⟩
  · exact ⟨h5, h6, h7, h8⟩

theorem casedWord_facts {m : List Bool} {w : List Char} (hm : m.length = w.length)
    (hg : ∀ c ∈ w, goodLetter c = true) :
    ∀ x ∈ casedWord m w, isNumChar x = false ∧ isWS x = false ∧
      (x == '&') = false ∧ isKM x = false := by
  induction m generalizing w with
  | nil =>
    intro x hx
    cases hx
  | cons b m' ih =>
    cases w with
    | nil =>
      intro x hx
      cases hx
    | cons c wt =>
      intro x hx
      rcases List.mem_cons.mp hx with rfl | hx'
      · exact goodLetter_applyCase (hg c (List.mem_cons_self c wt)) b
      · exact ih (by simpa using hm) (fun d hd => hg d (List.mem_cons_of_mem c hd)) x hx'

theorem ciMatchAt_casedWord (p : List Char) :
    ∀ (m : List Bool) (w z : List Char), m.length = w.length →
    ciMatchAt p (casedWord m w ++ z) = ciMatchAt p (w ++ z) := by
  induction p with
  | nil => intro m w z hm; rfl
  | cons q ps ih =>
    intro m w z hm
    cases m with
    | nil =>
      cases w with
      | nil => rfl
      | cons c wt => simp at hm
    | cons b m' =>
      cases w with
      | nil => simp at hm
      | cons c wt =>
        show (lowerChar q == lowerChar (applyCase b c) &&
            ciMatchAt ps (casedWord m' wt ++ z)) =
          (lowerChar q == lowerChar c && ciMatchAt ps (wt ++ z))
        rw [lowerChar_applyCase, ih m' wt z (by simpa using hm)]

theorem tryCountAt_nonnum_head (p : List Char) {c : Char} (t : List Char)
    (h : isNumChar c = false) : tryCountAt p (c :: t) = none := by
  simp [tryCountAt, h]

theorem findCountTok_cons_none {p : List Char} {c : Char} {t : List Char}
    (h : tryCountAt p (c :: t) = none) : findCountTok p (c :: t) = findCountTok p t := by
  simp [findCountTok, h]

theorem findCountTok_cons_some {p : List Char} {c : Char} {t cap : List Char}
    (h : tryCountAt p (c :: t) = some cap) : findCountTok p (c :: t) = some cap := by
  simp [findCountTok, h]

theorem findCountTok_append_nonnum {p : List Char} {l : List Char}
    (h : ∀ c ∈ l, isNumChar c = false) (z : List Char) :
    findCountTok p (l ++ z) = findCountTok p z := by
  induction l with
  | nil => rfl
  | cons c t ih =>
    rw [List.cons_append,
      findCountTok_cons_none (tryCountAt_nonnum_head p _ (h c (List.mem_cons_self c t)))]
    exact ih (fun d hd => h d (List.mem_cons_of_mem c hd))

theorem tryCountAt_token (p : List Char) (dgs : List Char)
    (hd : ∀ c ∈ dgs, isNumChar c = true) (hne : dgs ≠ []) {wc : Char}
    (hws : isWS wc = false) (hwkm : isKM wc = false) (r : List Char) :
    tryCountAt p (dgs ++ ' ' :: wc :: r) =
      (if ciMatchAt p (wc :: r) = true then some dgs else none) := by
  have hsw : isWS ' ' = true := by decide
  have hwsn : ¬ (isWS wc = true) := by simp [hws]
  obtain ⟨htake, hdrop⟩ :=
    takeWhile_all_append hd (show isNumChar ' ' = false by decide) (wc :: r)
  have h1 : List.takeWhile isWS (' ' :: wc :: r) = [' '] := by
    rw [List.takeWhile_cons_of_pos hsw, List.takeWhile_cons_of_neg hwsn]
  have h2 : List.dropWhile isWS (' ' :: wc :: r) = wc :: r := by
    rw [List.dropWhile_cons_of_pos hsw, List.dropWhile_cons_of_neg hwsn]
  have hdsE : dgs.isEmpty = false := by
    cases dgs with
    | nil => exact absurd rfl hne
    | cons a l => rfl
  unfold tryCountAt
  rw [htake, hdrop]
  simp only [h1, h2, hdsE, Bool.false_eq_true, if_false, hwkm, Bool.false_and, Bool.and_false]
  cases hv : ciMatchAt p (wc :: r) with
  | true => simp [hv]
  | false => simp [hv]

theorem findCountTok_token (p : List Char) (dgs : List Char)
    (hd : ∀ c ∈ dgs, isNumChar c = true) {wc : Char} (hwn : isNumChar wc = false)
    (hws : isWS wc = false) (hwkm : isKM wc = false) {wrest : List Char}
    (hwr : ∀ c ∈ wrest, isNumChar c = false) (z : List Char) :
    findCountTok p (dgs ++ ' ' :: wc :: (wrest ++ z)) =
      (if ciMatchAt p (wc :: (wrest ++ z)) = true ∧ dgs ≠ [] then some dgs
       else findCountTok p z) := by
  induction dgs with
  | nil =>
    rw [List.nil_append,
      findCountTok_cons_none (tryCountAt_nonnum_head p _ (by decide)),
      show wc :: (wrest ++ z) = (wc :: wrest) ++ z from rfl,
      findCountTok_append_nonnum (fun c hc => by
        rcases List.mem_cons.mp hc with rfl | hc'
        · exact hwn
        · exact hwr c hc') z]
    simp
  | cons d dt ih =>
    have htc := tryCountAt_token p (d :: dt) hd (by simp) hws hwkm (wrest ++ z)
    cases hv : ciMatchAt p (wc :: (wrest ++ z)) with
    | true =>
      rw [hv, if_pos rfl] at htc
      rw [show (d :: dt) ++ ' ' :: wc :: (wrest ++ z) =
        d :: (dt ++ ' ' :: wc :: (wrest ++ z)) from rfl] at htc ⊢
      rw [findCountTok_cons_some htc]
      simp [hv]
    | false =>
      rw [hv] at htc
      simp only [Bool.false_eq_true, if_false] at htc
      rw [show (d :: dt) ++ ' ' :: wc :: (wrest ++ z) =
        d :: (dt ++ ' ' :: wc :: (wrest ++ z)) from rfl] at htc ⊢
      rw [findCountTok_cons_none htc,
        ih (fun c hc => hd c (List.mem_cons_of_mem d hc))]
      simp [hv]

theorem scan_tok_fail (p dgs word : List Char) (m : List Bool) (z : List Char)
    (hd : ∀ c ∈ dgs, isNumChar c = true)
    (hg : ∀ c ∈ word, goodLetter c = true)
    (hm : m.length = word.length) (hwne : word ≠ [])
    (hci : ciMatchAt p (word ++ z) = false) :
    findCountTok p (tokenOf dgs m word ++ z) = findCountTok p z := by
  cases word with
  | nil => exact absurd rfl hwne
  | cons c wt =>
    cases m with
    | nil => simp at hm
    | cons b m' =>
      have hm' : m'.length = wt.length := by simpa using hm
      have hcw := casedWord_facts hm' (fun d hd2 => hg d (List.mem_cons_of_mem c hd2))
      have hgc := goodLetter_applyCase (hg c (List.mem_cons_self c wt)) b
      have hshape : tokenOf dgs (b :: m') (c :: wt) ++ z =
          dgs ++ ' ' :: (applyCase b c) :: (casedWord m' wt ++ z) := by
        simp [tokenOf, casedWord, List.append_assoc]
      have hfalse : ciMatchAt p ((applyCase b c) :: (casedWord m' wt ++ z)) = false := by
        have hrw : (applyCase b c) :: (casedWord m' wt ++ z) =
            casedWord (b :: m') (c :: wt) ++ z := by
          simp [casedWord]
        rw [hrw, ciMatchAt_casedWord p (b :: m') (c :: wt) z hm]
        exact hci
      rw [hshape, findCountTok_token p dgs hd hgc.1 hgc.2.1 hgc.2.2.2
        (fun d hd2 => (hcw d hd2).1) z, if_neg (by simp [hfalse])]

theorem scan_tok_match (p dgs word : List Char) (m : List Bool) (z : List Char)
    (hd : ∀ c ∈ dgs, isNumChar c = true) (hdne : dgs ≠ [])
    (hg : ∀ c ∈ word, goodLetter c = true)
    (hm : m.length = word.length) (hwne : word ≠ [])
    (hci : ciMatchAt p (word ++ z) = true) :
    findCountTok p (tokenOf dgs m word ++ z) = some dgs := by
  cases word with
  | nil => exact absurd rfl hwne
  | cons c wt =>
    cases m with
    | nil => simp at hm
    | cons b m' =>
      have hm' : m'.length = wt.length := by simpa using hm
      have hcw := casedWord_facts hm' (fun d hd2 => hg d (List.mem_cons_of_mem c hd2))
      have hgc := goodLetter_applyCase (hg c (List.mem_cons_self c wt)) b
      have hshape : tokenOf dgs (b :: m') (c :: wt) ++ z =
          dgs ++ ' ' :: (applyCase b c) :: (casedWord m' wt ++ z) := by
        simp [tokenOf, casedWord, List.append_assoc]
      have htrue : ciMatchAt p ((applyCase b c) :: (casedWord m' wt ++ z)) = true := by
        have hrw : (applyCase b c) :: (casedWord m' wt ++ z) =
            casedWord (b :: m') (c :: wt) ++ z := by
          simp [casedWord]
        rw [hrw, ciMatchAt_casedWord p (b :: m') (c :: wt) z hm]
        exact hci
      rw [hshape, findCountTok_token p dgs hd hgc.1 hgc.2.1 hgc.2.2.2
        (fun d hd2 => (hcw d hd2).1) z, if_pos ⟨htrue, hdne⟩]

theorem findCountTok_sep (p : List Char) {d : Char} (hdws : isWS d = false)
    (hdkm : isKM d = false) (rt : List Char)
    (hci : ciMatchAt p (d :: rt) = false) :
    findCountTok p (',' :: ' ' :: d :: rt) = findCountTok p (d :: rt) := by
  have htc := tryCountAt_token p [','] (by decide) (by decide) hdws hdkm rt
  rw [hci] at htc
  simp only [Bool.false_eq_true, if_false] at htc
  have h1 : findCountTok p (',' :: ' ' :: d :: rt) = findCountTok p (' ' :: d :: rt) :=
    findCountTok_cons_none htc
  rw [h1, findCountTok_cons_none (tryCountAt_nonnum_head p _ (by decide))]

/-- The head of pattern `p` fails (case-insensitively) against `c`, so no
match of `p` can start at `c`. -/
def ciFirstMismatch (p : List Char) (c : Char) : Bool :=
  match p with
  | [] => false
  | q :: _ => !(lowerChar q == lowerChar c)

theorem ciMatchAt_false_of_mismatch {p : List Char} {c : Char}
    (h : ciFirstMismatch p c = true) (x : List Char) : ciMatchAt p (c :: x) = false := by
  cases p with
  | nil => simp [ciFirstMismatch] at h
  | cons q ps =>
    show (lowerChar q == lowerChar c && ciMatchAt ps x) = false
    simp only [ciFirstMismatch, Bool.not_eq_true'] at h
    rw [h, Bool.false_and]

theorem sepJoin_shape (t1 t2 t3 : List Char) :
    sepJoin t1 t2 t3 = t1 ++ (',' :: ' ' :: (t2 ++ (',' :: ' ' :: t3))) := by
  simp [sepJoin, List.append_assoc]

theorem find_three_1 (p : List Char) (d1 w1 d2 w2 d3 w3 : List Char)
    (m1 m2 m3 : List Bool)
    (hd1 : ∀ c ∈ d1, isNumChar c = true) (h1ne : d1 ≠ [])
    (hg1 : ∀ c ∈ w1, goodLetter c = true) (hm1 : m1.length = w1.length) (hw1ne : w1 ≠ [])
    (hci : ciMatchAt p
      (w1 ++ (',' :: ' ' :: (tokenOf d2 m2 w2 ++ (',' :: ' ' :: tokenOf d3 m3 w3)))) = true) :
    findCountTok p (sepJoin (tokenOf d1 m1 w1) (tokenOf d2 m2 w2) (tokenOf d3 m3 w3)) =
      some d1 := by
  rw [sepJoin_shape]
  exact scan_tok_match p d1 w1 m1 _ hd1 h1ne hg1 hm1 hw1ne hci

theorem find_three_2 (p : List Char) (d1 w1 : List Char) (d2h : Char)
    (d2t w2 d3 w3 : List Char) (m1 m2 m3 : List Bool)
    (hg1 : ∀ c ∈ w1, goodLetter c = true) (hm1 : m1.length = w1.length) (hw1ne : w1 ≠ [])
    (hd1 : ∀ c ∈ d1, isNumChar c = true)
    (hd2 : ∀ c ∈ d2h :: d2t, isNumChar c = true)
    (hd2ws : isWS d2h = false) (hd2km : isKM d2h = false)
    (hg2 : ∀ c ∈ w2, goodLetter c = true) (hm2 : m2.length = w2.length) (hw2ne : w2 ≠ [])
    (hci1 : ciMatchAt p
      (w1 ++ (',' :: ' ' :: (tokenOf (d2h :: d2t) m2 w2 ++ (',' :: ' ' :: tokenOf d3 m3 w3))))
      = false)
    (hmis : ciFirstMismatch p d2h = true)
    (hci2 : ciMatchAt p (w2 ++ (',' :: ' ' :: tokenOf d3 m3 w3)) = true) :
    findCountTok p
      (sepJoin (tokenOf d1 m1 w1) (tokenOf (d2h :: d2t) m2 w2) (tokenOf d3 m3 w3)) =
      some (d2h :: d2t) := by
  rw [sepJoin_shape]
  have eshape : tokenOf (d2h :: d2t) m2 w2 ++ (',' :: ' ' :: tokenOf d3 m3 w3) =
      d2h :: (d2t ++ ' ' ::
        (casedWord m2 w2 ++ (',' :: ' ' :: tokenOf d3 m3 w3))) := by
    simp [tokenOf, List.append_assoc]
  rw [scan_tok_fail p d1 w1 m1
    (',' :: ' ' :: (tokenOf (d2h :: d2t) m2 w2 ++ (',' :: ' ' :: tokenOf d3 m3 w3)))
    hd1 hg1 hm1 hw1ne hci1]
  rw [eshape, findCountTok_sep p hd2ws hd2km _ (ciMatchAt_false_of_mismatch hmis _), ← eshape]
  exact scan_tok_match p (d2h :: d2t) w2 m2 _ hd2 (by simp) hg2 hm2 hw2ne hci2

theorem find_three_3 (p : List Char) (d1 w1 : List Char) (d2h : Char)
    (d2t w2 : List Char) (d3h : Char) (d3t w3 : List Char) (m1 m2 m3 : List Bool)
    (hg1 : ∀ c ∈ w1, goodLetter c = true) (hm1 : m1.length = w1.length) (hw1ne : w1 ≠ [])
    (hd1 : ∀ c ∈ d1, isNumChar c = true)
    (hd2 : ∀ c ∈ d2h :: d2t, isNumChar c = true)
    (hd2ws : isWS d2h = false) (hd2km : isKM d2h = false)
    (hg2 : ∀ c ∈ w2, goodLetter c = true) (hm2 : m2.length = w2.length) (hw2ne : w2 ≠ [])
    (hd3 : ∀ c ∈ d3h :: d3t, isNumChar c = true)
    (hd3ws : isWS d3h = false) (hd3km : isKM d3h = false)
    (hg3 : ∀ c ∈ w3, goodLetter c = true) (hm3 : m3.length = w3.length) (hw3ne : w3 ≠ [])
    (hci1 : ciMatchAt p
      (w1 ++ (',' :: ' ' ::
        (tokenOf (d2h :: d2t) m2 w2 ++ (',' :: ' ' :: tokenOf (d3h :: d3t) m3 w3)))) = false)
    (hmis2 : ciFirstMismatch p d2h = true)
    (hci2 : ciMatchAt p (w2 ++ (',' :: ' ' :: tokenOf (d3h :: d3t) m3 w3)) = false)
    (hmis3 : ciFirstMismatch p d3h = true)
    (hci3 : ciMatchAt p (w3 ++ []) = true) :
    findCountTok p
      (sepJoin (tokenOf d1 m1 w1) (tokenOf (d2h :: d2t) m2 w2) (tokenOf (d3h :: d3t) m3 w3)) =
      some (d3h :: d3t) := by
  rw [sepJoin_shape]
  have eshape2 : tokenOf (d2h :: d2t) m2 w2 ++ (',' :: ' ' :: tokenOf (d3h :: d3t) m3 w3) =
      d2h :: (d2t ++ ' ' ::
        (casedWord m2 w2 ++ (',' :: ' ' :: tokenOf (d3h :: d3t) m3 w3))) := by
    simp [tokenOf, List.append_assoc]
  have eshape3 : tokenOf (d3h :: d3t) m3 w3 ++ ([] : List Char) =
      d3h :: (d3t ++ ' ' :: (casedWord m3 w3 ++ [])) := by
    simp [tokenOf, List.append_assoc]
  rw [scan_tok_fail p d1 w1 m1
    (',' :: ' ' :: (tokenOf (d2h :: d2t) m2 w2 ++ (',' :: ' ' :: tokenOf (d3h :: d3t) m3 w3)))
    hd1 hg1 hm1 hw1ne hci1]
  rw [eshape2, findCountTok_sep p hd2ws hd2km _ (ciMatchAt_false_of_mismatch hmis2 _),
    ← eshape2]
  rw [scan_tok_fail p (d2h :: d2t) w2 m2 (',' :: ' ' :: tokenOf (d3h :: d3t) m3 w3)
    hd2 hg2 hm2 hw2ne hci2]
  have hnil : tokenOf (d3h :: d3t) m3 w3 = tokenOf (d3h :: d3t) m3 w3 ++ ([] : List Char) :=
    (List.append_nil _).symm
  rw [hnil, eshape3, findCountTok_sep p hd3ws hd3km _ (ciMatchAt_false_of_mismatch hmis3 _),
    ← eshape3]
  exact scan_tok_match p (d3h :: d3t) w3 m3 [] hd3 (by simp) hg3 hm3 hw3ne hci3

theorem replAll_id {pat : List Char} (pt : List Char) (hpat : pat = '&' :: pt)
    (rep : List Char) {l : List Char} (h : ∀ c ∈ l, (c == '&') = false) :
    replAll pat rep 0 l = l := by
  induction l with
  | nil => rfl
  | cons c t ih =>
    have hc : ('&' == c) = false := by
      have := h c (List.mem_cons_self c t)
      simp only [beq_eq_false_iff_ne, ne_eq] at this ⊢
      exact fun he => this he.symm
    have hsw : startsWithL pat (c :: t) = false := by
      rw [hpat]
      show (('&' == c) && startsWithL pt t) = false
      rw [hc, Bool.false_and]
    show replAll pat rep 0 (c :: t) = c :: t
    unfold replAll
    rw [hsw, Bool.false_and, if_neg (by simp)]
    exact congrArg (c :: ·) (ih (fun d hd => h d (List.mem_cons_of_mem c hd)))

theorem decodeHtmlEntities_id {l : List Char} (h : ∀ c ∈ l, (c == '&') = false) :
    decodeHtmlEntities l = l := by
  unfold decodeHtmlEntities replaceAllL
  rw [replAll_id ['a', 'm', 'p', ';'] rfl _ h, replAll_id ['q', 'u', 'o', 't', ';'] rfl _ h,
    replAll_id ['#', '0', '3', '9', ';'] rfl _ h, replAll_id ['l', 't', ';'] rfl _ h,
    replAll_id ['g', 't', ';'] rfl _ h]

theorem ampFree_tokenOf {dgs : List Char} (hd : ∀ c ∈ dgs, (c == '&') = false)
    {m : List Bool} {w : List Char} (hm : m.length = w.length)
    (hg : ∀ c ∈ w, goodLetter c = true) :
    ∀ c ∈ tokenOf dgs m w, (c == '&') = false := by
  intro c hc
  rw [tokenOf] at hc
  rcases List.mem_append.mp hc with h1 | h1
  · exact hd c h1
  · rcases List.mem_cons.mp h1 with rfl | h2
    · decide
    · exact (casedWord_facts hm hg c h2).2.2.1

theorem ampFree_sepJoin {t1 t2 t3 : List Char}
    (h1 : ∀ c ∈ t1, (c == '&') = false) (h2 : ∀ c ∈ t2, (c == '&') = false)
    (h3 : ∀ c ∈ t3, (c == '&') = false) :
    ∀ c ∈ sepJoin t1 t2 t3, (c == '&') = false := by
  intro c hc
  rw [sepJoin_shape] at hc
  rcases List.mem_append.mp hc with hx | hx
  · exact h1 c hx
  · rcases List.mem_cons.mp hx with rfl | hx
    · decide
    · rcases List.mem_cons.mp hx with rfl | hx
      · decide
      · rcases List.mem_append.mp hx with hy | hy
        · exact h2 c hy
        · rcases List.mem_cons.mp hy with rfl | hy
          · decide
          · rcases List.mem_cons.mp hy with rfl | hy
            · decide
            · exact h3 c hy

theorem extract_of_finds (content : List Char) (pic : Option String) (ht : String)
    (hne : content.isEmpty = false)
    (hdec : decodeHtmlEntities content = content)
    (hf : findCountTok followerLabel content = some ['1', '5', '0'])
    (hgg : findCountTok followingLabel content = some ['1', '2'])
    (hp : findCountTok postLabel content = some ['3', '4']) :
    extractProfileStats ⟨some (String.mk content), pic, ht⟩ =
      ({ source := "meta:description", postsRaw := some "34", followersRaw := some "150",
         followingRaw := some "12", posts := some 34, followers := some 150,
         following := some 12, profilePicUrl := pic }, false) := by
  have hn1 : normalizeCount (some (String.mk ['3', '4'])) = some 34 := by decide
  have hn2 : normalizeCount (some (String.mk ['1', '5', '0'])) = some 150 := by decide
  have hn3 : normalizeCount (some (String.mk ['1', '2'])) = some 12 := by decide
  have hparse : parseProfileStatsFromHtml ⟨some (String.mk content), pic, ht⟩ =
      { source := "meta:description", postsRaw := some "34", followersRaw := some "150",
        followingRaw := some "12", posts := some 34, followers := some 150,
        following := some 12, profilePicUrl := pic } := by
    unfold parseProfileStatsFromHtml
    dsimp only
    rw [show ((some (String.mk content)).getD "").data = content from rfl, hdec, hf, hgg, hp,
      hne]
    simp only [Option.map_some', hn1, hn2, hn3, Bool.false_eq_true, if_false]
  unfold extractProfileStats
  rw [hparse]
  rfl

/-- **C8 (confirmed).**  (1) For every meta description consisting of the
three labelled tokens "150 Followers", "12 Following", "34 Posts" — with
each label letter independently upper- or lower-cased (the strings matched
by the `i`-flag label patterns) and the three tokens in any of the six
orders, joined by ", " — the Extractor returns followers = 150,
following = 12, posts = 34 from the meta-description tier, regardless of
the DOM-visible-text fallback content (the result does not depend on
`headerText`, which the tier-1 path never consults).  (2) The fallback tier
runs exactly when none of the three labels resolve from the
meta-description. -/
theorem claim8 :
    (∀ (m1 m2 m3 : List Bool) (pic : Option String) (headerText : String)
      (content : List Char),
      m1.length = 9 → m2.length = 9 → m3.length = 5 →
      content ∈ [
        sepJoin (tokenOf ['1', '5', '0'] m1 followersWord)
          (tokenOf ['1', '2'] m2 followingWord) (tokenOf ['3', '4'] m3 postsWord),
        sepJoin (tokenOf ['1', '5', '0'] m1 followersWord)
          (tokenOf ['3', '4'] m3 postsWord) (tokenOf ['1', '2'] m2 followingWord),
        sepJoin (tokenOf ['1', '2'] m2 followingWord)
          (tokenOf ['1', '5', '0'] m1 followersWord) (tokenOf ['3', '4'] m3 postsWord),
        sepJoin (tokenOf ['1', '2'] m2 followingWord)
          (tokenOf ['3', '4'] m3 postsWord) (tokenOf ['1', '5', '0'] m1 followersWord),
        sepJoin (tokenOf ['3', '4'] m3 postsWord)
          (tokenOf ['1', '5', '0'] m1 followersWord) (tokenOf ['1', '2'] m2 followingWord),
        sepJoin (tokenOf ['3', '4'] m3 postsWord)
          (tokenOf ['1', '2'] m2 followingWord) (tokenOf ['1', '5', '0'] m1 followersWord)] →
      extractProfileStats ⟨some (String.mk content), pic, headerText⟩ =
        ({ source := "meta:description", postsRaw := some "34", followersRaw := some "150",
           followingRaw := some "12", posts := some 34, followers := some 150,
           following := some 12, profilePicUrl := pic }, false)) ∧
    (∀ page : PageHtml,
      (extractProfileStats page).2 = true ↔
        ((parseProfileStatsFromHtml page).followers = none ∧
         (parseProfileStatsFromHtml page).following = none ∧
         (parseProfileStatsFromHtml page).posts = none)) := by
  constructor
  · intro m1 m2 m3 pic ht content h1 h2 h3 hmem
    have hm1 : m1.length = followersWord.length := h1
    have hm2 : m2.length = followingWord.length := h2
    have hm3 : m3.length = postsWord.length := h3
    have hgF : ∀ c ∈ followersWord, goodLetter c = true := by decide
    have hgG : ∀ c ∈ followingWord, goodLetter c = true := by decide
    have hgP : ∀ c ∈ postsWord, goodLetter c = true := by decide
    have hdF : ∀ c ∈ (['1', '5', '0'] : List Char), isNumChar c = true := by decide
    have hdG : ∀ c ∈ (['1', '2'] : List Char), isNumChar c = true := by decide
    have hdP : ∀ c ∈ (['3', '4'] : List Char), isNumChar c = true := by decide
    have haF : ∀ c ∈ tokenOf ['1', '5', '0'] m1 followersWord, (c == '&') = false :=
      ampFree_tokenOf (by decide) hm1 hgF
    have haG : ∀ c ∈ tokenOf ['1', '2'] m2 followingWord, (c == '&') = false :=
      ampFree_tokenOf (by decide) hm2 hgG
    have haP : ∀ c ∈ tokenOf ['3', '4'] m3 postsWord, (c == '&') = false :=
      ampFree_tokenOf (by decide) hm3 hgP
    have hFne : followersWord ≠ [] := by decide
    have hGne : followingWord ≠ [] := by decide
    have hPne : postsWord ≠ [] := by decide
    fin_cases hmem
    · exact extract_of_finds _ pic ht rfl
        (decodeHtmlEntities_id (ampFree_sepJoin haF haG haP))
        (find_three_1 followerLabel ['1', '5', '0'] followersWord ['1', '2'] followingWord
          ['3', '4'] postsWord m1 m2 m3 hdF (by simp) hgF hm1 hFne rfl)
        (find_three_2 followingLabel ['1', '5', '0'] followersWord '1' ['2'] followingWord
          ['3', '4'] postsWord m1 m2 m3 hgF hm1 hFne hdF hdG (by decide) (by decide)
          hgG hm2 hGne rfl (by decide) rfl)
        (find_three_3 postLabel ['1', '5', '0'] followersWord '1' ['2'] followingWord
          '3' ['4'] postsWord m1 m2 m3 hgF hm1 hFne hdF hdG (by decide) (by decide)
          hgG hm2 hGne hdP (by decide) (by decide) hgP hm3 hPne rfl (by decide) rfl
          (by decide) rfl)
    · exact extract_of_finds _ pic ht rfl
        (decodeHtmlEntities_id (ampFree_sepJoin haF haP haG))
        (find_three_1 followerLabel ['1', '5', '0'] followersWord ['3', '4'] postsWord
          ['1', '2'] followingWord m1 m3 m2 hdF (by simp) hgF hm1 hFne rfl)
        (find_three_3 followingLabel ['1', '5', '0'] followersWord '3' ['4'] postsWord
          '1' ['2'] followingWord m1 m3 m2 hgF hm1 hFne hdF hdP (by decide) (by decide)
          hgP hm3 hPne hdG (by decide) (by decide) hgG hm2 hGne rfl (by decide) rfl
          (by decide) rfl)
        (find_three_2 postLabel ['1', '5', '0'] followersWord '3' ['4'] postsWord
          ['1', '2'] followingWord m1 m3 m2 hgF hm1 hFne hdF hdP (by decide) (by decide)
          hgP hm3 hPne rfl (by decide) rfl)
    · exact extract_of_finds _ pic ht rfl
        (decodeHtmlEntities_id (ampFree_sepJoin haG haF haP))
        (find_three_2 followerLabel ['1', '2'] followingWord '1' ['5', '0'] followersWord
          ['3', '4'] postsWord m2 m1 m3 hgG hm2 hGne hdG hdF (by decide) (by decide)
          hgF hm1 hFne rfl (by decide) rfl)
        (find_three_1 followingLabel ['1', '2'] followingWord ['1', '5', '0'] followersWord
          ['3', '4'] postsWord m2 m1 m3 hdG (by simp) hgG hm2 hGne rfl)
        (find_three_3 postLabel ['1', '2'] followingWord '1' ['5', '0'] followersWord
          '3' ['4'] postsWord m2 m1 m3 hgG hm2 hGne hdG hdF (by decide) (by decide)
          hgF hm1 hFne hdP (by decide) (by decide) hgP hm3 hPne rfl (by decide) rfl
          (by decide) rfl)
    · exact extract_of_finds _ pic ht rfl
        (decodeHtmlEntities_id (ampFree_sepJoin haG haP haF))
        (find_three_3 followerLabel ['1', '2'] followingWord '3' ['4'] postsWord
          '1' ['5', '0'] followersWord m2 m3 m1 hgG hm2 hGne hdG hdP (by decide) (by decide)
          hgP hm3 hPne hdF (by decide) (by decide) hgF hm1 hFne rfl (by decide) rfl
          (by decide) rfl)
        (find_three_1 followingLabel ['1', '2'] followingWord ['3', '4'] postsWord
          ['1', '5', '0'] followersWord m2 m3 m1 hdG (by simp) hgG hm2 hGne rfl)
        (find_three_2 postLabel ['1', '2'] followingWord '3' ['4'] postsWord
          ['1', '5', '0'] followersWord m2 m3 m1 hgG hm2 hGne hdG hdP (by decide)
          (by decide) hgP hm3 hPne rfl (by decide) rfl)
    · exact extract_of_finds _ pic ht rfl
        (decodeHtmlEntities_id (ampFree_sepJoin haP haF haG))
        (find_three_2 followerLabel ['3', '4'] postsWord '1' ['5', '0'] followersWord
          ['1', '2'] followingWord m3 m1 m2 hgP hm3 hPne hdP hdF (by decide) (by decide)
          hgF hm1 hFne rfl (by decide) rfl)
        (find_three_3 followingLabel ['3', '4'] postsWord '1' ['5', '0'] followersWord
          '1' ['2'] followingWord m3 m1 m2 hgP hm3 hPne hdP hdF (by decide) (by decide)
          hgF hm1 hFne hdG (by decide) (by decide) hgG hm2 hGne rfl (by decide) rfl
          (by decide) rfl)
        (find_three_1 postLabel ['3', '4'] postsWord ['1', '5', '0'] followersWord
          ['1', '2'] followingWord m3 m1 m2 hdP (by simp) hgP hm3 hPne rfl)
    · exact extract_of_finds _ pic ht rfl
        (decodeHtmlEntities_id (ampFree_sepJoin haP haG haF))
        (find_three_3 followerLabel ['3', '4'] postsWord '1' ['2'] followingWord
          '1' ['5', '0'] followersWord m3 m2 m1 hgP hm3 hPne hdP hdG (by decide)
          (by decide) hgG hm2 hGne hdF (by decide) (by decide) hgF hm1 hFne rfl
          (by decide) rfl (by decide) rfl)
        (find_three_2 followingLabel ['3', '4'] postsWord '1' ['2'] followingWord
          ['1', '5', '0'] followersWord m3 m2 m1 hgP hm3 hPne hdP hdG (by decide)
          (by decide) hgG hm2 hGne rfl (by decide) rfl)
        (find_three_1 postLabel ['3', '4'] postsWord ['1', '2'] followingWord
          ['1', '5', '0'] followersWord m3 m2 m1 hdP (by simp) hgP hm3 hPne rfl)
  · intro page
    unfold extractProfileStats
    by_cases hc : ((parseProfileStatsFromHtml page).posts.isSome ||
        (parseProfileStatsFromHtml page).followers.isSome ||
        (parseProfileStatsFromHtml page).following.isSome) = true
    · rw [if_pos hc]
      simp only [Bool.or_eq_true, Option.isSome_iff_ne_none] at hc
      constructor
      · intro h
        exact absurd h (by simp)
      · rintro ⟨ha, hb, hcc⟩
        rcases hc with (h | h) | h
        · exact absurd hcc h
        · exact absurd ha h
        · exact absurd hb h
    · rw [if_neg hc]
      simp only [Bool.or_eq_true, not_or, Option.isSome_iff_ne_none, not_not] at hc
      obtain ⟨⟨hp2, hf2⟩, hg2⟩ := hc
      exact ⟨fun _ => ⟨hf2, hg2, hp2⟩, fun _ => rfl⟩

/-- **C8 (witness).**  The theorem at a concrete casing and order:
`"34 PoStS, 150 followers, 12 FOLLOWING"`. -/
theorem claim8_witness :
    extractProfileStats
      ⟨some (String.mk (sepJoin
        (tokenOf ['3', '4'] [true, false, true, false, true] postsWord)
        (tokenOf ['1', '5', '0'] (List.replicate 9 false) followersWord)
        (tokenOf ['1', '2'] (List.replicate 9 true) followingWord))),
        none, "junk 9 Followers"⟩ =
      ({ source := "meta:description", postsRaw := some "34", followersRaw := some "150",
         followingRaw := some "12", posts := some 34, followers := some 150,
         following := some 12, profilePicUrl := none }, false) :=
  claim8.1 (List.replicate 9 false) (List.replicate 9 true)
    [true, false, true, false, true] none "junk 9 Followers" _
    (by decide) (by decide) (by decide) (by decide)

end Scrapinsta
